import Mathlib

/-!
# A verification development for the ElectrumSV wallet core

This file gives a shallow embedding, in Lean 4, of the parts of the
ElectrumSV wallet engineering core that the checked properties concern:

* the raw-transaction data model and codec (`electrumsv/transaction.py`):
  the `_BCDataStream` byte stream, script-opcode decoding and
  script-signature classification, `deserialize`, `Transaction.serialize`,
  `Transaction.signature_count` / `is_complete`, and
  `Transaction.update_signatures`;
* the BIP270-style payment-request subsystem
  (`electrumsv/paymentrequest.py`): the `Output` wrapper and its dict/JSON
  round trip, `PaymentRequest.from_json` validation, and the `InvoiceStore`;
* the Ledger hardware-wallet plugin's positional ASN.1-like signature
  parser (`electrumsv/devices/ledger/ledger.py`, `sign_message`).

Conventions of the embedding:

* Python `bytes` values are `List Nat` with every element a byte value;
  machine integers are `Nat`/`Int` with explicit reductions modulo `2 ^ w`
  where the Python code packs fixed-width fields.
* The wallet plumbs hexadecimal strings between `serialize`, `bfh` and
  `deserialize`; since `bytes.fromhex` and `bytes.hex` are mutually inverse
  the hex leg is modelled at the byte level, so `deserializeRaw (serialize tx)`
  here corresponds to `deserialize(tx.serialize())` in the source (whose
  first step is `bfh(raw)`).
* Fallible Python code (raising exceptions) is modelled with
  `Except PyErr`; the distinct exception classes that the claims
  distinguish are constructors of `PyErr`.
* Vendored cryptographic primitives (bitcoinx elliptic-curve operations,
  hashing, BIP32 derivation) are exactly the dependencies the repository's
  specification excludes; they are abstracted into an `ExtCrypto` record of
  total functions, over which every theorem is universally quantified.
  Nothing proved below depends on a particular choice of these functions;
  witnesses instantiate them with concrete executable stand-ins.
-/

namespace ElectrumSV

/-- A byte value (0..255); invariants are carried in hypotheses where needed. -/
abbrev Byte := Nat

/-- A Python `bytes` value. -/
abbrev Bytes := List Nat

/-! ## Little-endian fixed-width integers

Models the `struct` little-endian formats `<H`, `<I`, `<Q`, `<i`, `<q` used
by `_BCDataStream._read_num` / `_write_num`, and the fixed-width
`int_to_hex` of the wallet's byte-utility module. -/

/-- Little-endian encoding of `v % 2 ^ (8 * w)` in exactly `w` bytes. -/
def leEnc : Nat → Nat → Bytes
  | 0, _ => []
  | w + 1, v => (v % 256) :: leEnc w (v / 256)

/-- Little-endian decoding of a byte list to a natural number. -/
def leDec (bs : Bytes) : Nat :=
  bs.foldr (fun b acc => b + 256 * acc) 0

@[simp] theorem leEnc_length (w v : Nat) : (leEnc w v).length = w := by
  induction w generalizing v with
  | zero => rfl
  | succ w ih => simp [leEnc, ih]

theorem leDec_leEnc (w v : Nat) : leDec (leEnc w v) = v % 2 ^ (8 * w) := by
  induction w generalizing v with
  | zero => simp [leEnc, leDec, Nat.mod_one]
  | succ w ih =>
      have hrec : leDec (leEnc (w + 1) v) = v % 256 + 256 * (v / 256 % 2 ^ (8 * w)) := by
        simp only [leEnc, leDec, List.foldr_cons]
        have := ih (v / 256)
        simp only [leDec] at this
        rw [this]
      have hpow : (2 : Nat) ^ (8 * (w + 1)) = 256 * 2 ^ (8 * w) := by
        rw [Nat.mul_succ, pow_add]; ring
      have hsplit : v % (256 * 2 ^ (8 * w))
          = 256 * (v / 256 % 2 ^ (8 * w)) + v % 256 := by
        conv_lhs => rw [← Nat.div_add_mod (v % (256 * 2 ^ (8 * w))) 256]
        rw [Nat.mod_mul_right_div_self, Nat.mod_mod_of_dvd _ ⟨2 ^ (8 * w), rfl⟩]
      rw [hrec, hpow, hsplit]; omega

/-- Two's-complement reading of a `w`-byte little-endian value, as done by
the signed `struct` formats. -/
def sdec (w : Nat) (n : Nat) : Int :=
  if n < 2 ^ (8 * w - 1) then (n : Int) else (n : Int) - 2 ^ (8 * w)

/-- Packing of a Python integer into `w` little-endian bytes, reducing
modulo `2 ^ (8 * w)` (two's complement for negatives). -/
def intLE (w : Nat) (v : Int) : Bytes :=
  leEnc w ((v % ((2 : Int) ^ (8 * w))).toNat)

@[simp] theorem intLE_length (w : Nat) (v : Int) : (intLE w v).length = w := by
  simp [intLE]

theorem leDec_intLE_of_range (w : Nat) (v : Int) (h0 : 0 ≤ v)
    (hlt : v < (2 : Int) ^ (8 * w)) : (leDec (intLE w v) : Int) = v := by
  have hcast : (((2 : Nat) ^ (8 * w) : Nat) : Int) = (2 : Int) ^ (8 * w) := by
    push_cast; rfl
  have hmod : v % ((2 : Int) ^ (8 * w)) = v := Int.emod_eq_of_lt h0 hlt
  rw [intLE, hmod, leDec_leEnc]
  have hnat : v.toNat < 2 ^ (8 * w) := by omega
  rw [Nat.mod_eq_of_lt hnat]
  omega

theorem sdec_leDec_intLE (w : Nat) (hw : 1 ≤ w) (v : Int)
    (hlo : -(2 : Int) ^ (8 * w - 1) ≤ v) (hhi : v < (2 : Int) ^ (8 * w - 1)) :
    sdec w (leDec (intLE w v)) = v := by
  have hP : (0 : Int) < 2 ^ (8 * w - 1) := by positivity
  have hsplit : (2 : Int) ^ (8 * w) = 2 ^ (8 * w - 1) * 2 := by
    rw [← pow_succ]; congr 1; omega
  have hm : (0 : Int) < 2 ^ (8 * w) := by positivity
  have hmodval : v % ((2 : Int) ^ (8 * w)) = if 0 ≤ v then v else v + 2 ^ (8 * w) := by
    split
    · exact Int.emod_eq_of_lt (by assumption) (by omega)
    · rw [← Int.add_emod_self]
      exact Int.emod_eq_of_lt (by omega) (by omega)
  have hcastm : (((2 : Nat) ^ (8 * w) : Nat) : Int) = (2 : Int) ^ (8 * w) := by
    push_cast; rfl
  have hcastP : (((2 : Nat) ^ (8 * w - 1) : Nat) : Int) = (2 : Int) ^ (8 * w - 1) := by
    push_cast; rfl
  have hdec : leDec (intLE w v) = (v % ((2 : Int) ^ (8 * w))).toNat := by
    rw [intLE, leDec_leEnc]
    apply Nat.mod_eq_of_lt
    have h1 := Int.emod_lt_of_pos v hm
    have h2 := Int.emod_nonneg v (ne_of_gt hm)
    omega
  rw [hdec]
  by_cases hv : 0 ≤ v
  · have hvm : v % ((2 : Int) ^ (8 * w)) = v := by rw [hmodval, if_pos hv]
    rw [sdec, hvm, if_pos (by omega)]
    omega
  · have hvm : v % ((2 : Int) ^ (8 * w)) = v + 2 ^ (8 * w) := by
      rw [hmodval, if_neg hv]
    rw [sdec, hvm, if_neg (by omega)]
    omega

/-! ## Python exceptions

The exception classes distinguished by the embedded code. -/

/-- The Python exceptions raised (directly or via vendored helpers) by the
embedded code paths. -/
inductive PyErr
  /-- `SerializationError` from `electrumsv.transaction`. -/
  | serializationError (msg : String)
  | runtimeError (msg : String)
  | valueError (msg : String)
  | typeError
  | assertionError
  /-- Attribute lookup failure, carrying the missing attribute's name. -/
  | attributeError (name : String)
  | indexError
  /-- `struct.error` from a fixed-width unpack on a short buffer. -/
  | structError
  /-- `Bip270Exception` from `electrumsv.paymentrequest`. -/
  | bip270 (msg : String)
  | keyError
  /-- `InvalidSignatureError` from the vendored bitcoinx library. -/
  | invalidSignatureError
deriving DecidableEq, Repr

/-! ## The `_BCDataStream` byte stream

`_BCDataStream` holds an optional buffer and a read cursor.  Reads are
modelled exactly, including the Python slice semantics of `read_bytes`:
`self.input[cursor:cursor+length]` clamps to the available bytes and never
raises `IndexError`, so the `except IndexError` arm of `read_bytes` is
unreachable and a short read is returned silently. -/

structure BCDataStream where
  inputBuf : Option Bytes
  readCursor : Nat
deriving DecidableEq, Repr

namespace BCDataStream

/-- `_BCDataStream.write` (initialisation with a byte string). -/
def write (st : BCDataStream) (bs : Bytes) : BCDataStream :=
  match st.inputBuf with
  | none => { st with inputBuf := some bs }
  | some cur => { st with inputBuf := some (cur ++ bs) }

/-- `_BCDataStream.read_bytes`: `result = self.input[cursor:cursor+length]`,
then `cursor += length`.  A Python bytes slice clamps, so this returns a
short result when fewer than `length` bytes remain (the guarded
`IndexError` can never fire).  A `None` buffer would raise `TypeError`
(unsubscriptable), which the method does not catch. -/
def read_bytes (st : BCDataStream) (length : Nat) :
    Except PyErr (Bytes × BCDataStream) :=
  match st.inputBuf with
  | none => .error .typeError
  | some buf =>
      .ok ((buf.drop st.readCursor).take length,
           { st with readCursor := st.readCursor + length })

/-- `_BCDataStream._read_num` for an unsigned little-endian format of
`size` bytes: `struct.unpack_from` demands `size` bytes at the cursor and
raises `struct.error` otherwise, which the method converts to
`SerializationError`. -/
def readNumU (st : BCDataStream) (size : Nat) :
    Except PyErr (Nat × BCDataStream) :=
  match st.inputBuf with
  | none => .error (.serializationError "unpack_from on None")
  | some buf =>
      if st.readCursor + size ≤ buf.length then
        .ok (leDec ((buf.drop st.readCursor).take size),
             { st with readCursor := st.readCursor + size })
      else
        .error (.serializationError "struct.error")

/-- `_BCDataStream._read_num` for a signed little-endian format of `size`
bytes (two's complement). -/
def readNumS (st : BCDataStream) (size : Nat) :
    Except PyErr (Int × BCDataStream) :=
  match readNumU st size with
  | .error e => .error e
  | .ok (n, st') => .ok (sdec size n, st')

/-- `read_uint16` / `read_uint32` / `read_uint64` / `read_int32`. -/
def read_uint16 (st : BCDataStream) := readNumU st 2
def read_uint32 (st : BCDataStream) := readNumU st 4
def read_uint64 (st : BCDataStream) := readNumU st 8
def read_int32 (st : BCDataStream) := readNumS st 4

/-- `_BCDataStream.read_compact_size`: a single-byte index (which, unlike a
slice, does raise `IndexError` past the end, reported as the
"attempt to read past end of buffer" `SerializationError`), then an
optional fixed-width extension selected by the marker byte. -/
def read_compact_size (st : BCDataStream) :
    Except PyErr (Nat × BCDataStream) :=
  match st.inputBuf with
  | none => .error (.serializationError "attempt to read past end of buffer")
  | some buf =>
      match (buf.drop st.readCursor).head? with
      | none => .error (.serializationError "attempt to read past end of buffer")
      | some size =>
          let st1 : BCDataStream := { st with readCursor := st.readCursor + 1 }
          if size = 253 then readNumU st1 2
          else if size = 254 then readNumU st1 4
          else if size = 255 then readNumU st1 8
          else .ok (size, st1)

end BCDataStream

/-- `var_int` from the wallet's byte-utility module.
Modelled from the spec: compact-size encoding — values below 253 as one
byte, below `2 ^ 16` as `0xfd` plus a little-endian `uint16`, below
`2 ^ 32` as `0xfe` plus a `uint32`, below `2 ^ 64` as `0xff` plus a
`uint64` (the module itself is not part of this excerpt). -/
def varInt (n : Nat) : Bytes :=
  if n < 253 then [n]
  else if n < 2 ^ 16 then 253 :: leEnc 2 n
  else if n < 2 ^ 32 then 254 :: leEnc 4 n
  else 255 :: leEnc 8 n

/-! ### Stream-read lemmas

`st ≃ l` below abbreviates "the unread part of `st` is `l`"; every read
lemma consumes an encoded prefix and leaves a stream whose unread part is
the tail. -/

/-- The unread portion of a stream. -/
def BCDataStream.rest (st : BCDataStream) : Option Bytes :=
  st.inputBuf.map (fun buf => buf.drop st.readCursor)

theorem read_bytes_spec (st : BCDataStream) (a r : Bytes)
    (h : st.rest = some (a ++ r)) :
    ∃ st', BCDataStream.read_bytes st a.length = .ok (a, st') ∧
      st'.rest = some r := by
  rcases st with ⟨buf, cur⟩
  cases buf with
  | none => simp [BCDataStream.rest] at h
  | some buf =>
      simp only [BCDataStream.rest, Option.map_some', Option.some.injEq] at h
      refine ⟨⟨some buf, cur + a.length⟩, ?_, ?_⟩
      · simp only [BCDataStream.read_bytes, h]
        rw [List.take_append_of_le_length (le_refl _), List.take_length]
      · simp only [BCDataStream.rest, Option.map_some', Option.some.injEq]
        rw [← List.drop_drop, h, List.drop_left]

theorem readNumU_spec (st : BCDataStream) (w v : Nat) (hw : 1 ≤ w) (r : Bytes)
    (hv : v < 2 ^ (8 * w)) (h : st.rest = some (leEnc w v ++ r)) :
    ∃ st', BCDataStream.readNumU st w = .ok (v, st') ∧ st'.rest = some r := by
  rcases st with ⟨buf, cur⟩
  cases buf with
  | none => simp [BCDataStream.rest] at h
  | some buf =>
      simp only [BCDataStream.rest, Option.map_some', Option.some.injEq] at h
      have hlen := congrArg List.length h
      simp only [List.length_drop, List.length_append, leEnc_length] at hlen
      have hlen2 : cur + w ≤ buf.length := by omega
      refine ⟨⟨some buf, cur + w⟩, ?_, ?_⟩
      · simp only [BCDataStream.readNumU, if_pos hlen2]
        have htake : (buf.drop cur).take w = leEnc w v := by
          rw [h, List.take_append_of_le_length (by simp), List.take_of_length_le (by simp)]
        rw [htake, leDec_leEnc, Nat.mod_eq_of_lt hv]
      · simp only [BCDataStream.rest, Option.map_some', Option.some.injEq]
        rw [← List.drop_drop, h]
        have hdl := List.drop_left (leEnc w v) r
        rwa [leEnc_length] at hdl

theorem read_compact_size_spec (st : BCDataStream) (n : Nat) (r : Bytes)
    (hv : n < 2 ^ 64) (h : st.rest = some (varInt n ++ r)) :
    ∃ st', BCDataStream.read_compact_size st = .ok (n, st') ∧
      st'.rest = some r := by
  rcases st with ⟨buf, cur⟩
  cases buf with
  | none => simp [BCDataStream.rest] at h
  | some buf =>
      have hrest : buf.drop cur = varInt n ++ r := by
        simpa [BCDataStream.rest] using h
      by_cases h1 : n < 253
      · refine ⟨⟨some buf, cur + 1⟩, ?_, ?_⟩
        · simp only [BCDataStream.read_compact_size, varInt, if_pos h1] at hrest ⊢
          rw [hrest]
          simp only [List.head?_cons, List.cons_append]
          have : ¬(n = 253) := by omega
          rw [if_neg this, if_neg (by omega), if_neg (by omega)]
        · simp only [BCDataStream.rest, Option.map_some', Option.some.injEq]
          rw [← List.drop_drop, hrest]
          simp [varInt, if_pos h1]
      · -- marker byte followed by a fixed-width extension
        have hmark : ∃ marker w, varInt n = marker :: leEnc w n ∧ n < 2 ^ (8 * w) ∧
            1 ≤ w ∧ (marker = 253 ∨ marker = 254 ∨ marker = 255) ∧
            (marker = 253 → w = 2) ∧ (marker = 254 → w = 4) ∧ (marker = 255 → w = 8) := by
          by_cases h2 : n < 2 ^ 16
          · exact ⟨253, 2, by unfold varInt; rw [if_neg h1, if_pos h2], by simpa using h2,
              by omega, by omega, fun _ => rfl, by omega, by omega⟩
          · by_cases h3 : n < 2 ^ 32
            · exact ⟨254, 4, by unfold varInt; rw [if_neg h1, if_neg h2, if_pos h3],
                by simpa using h3, by omega, by omega, by omega, fun _ => rfl, by omega⟩
            · exact ⟨255, 8, by unfold varInt; rw [if_neg h1, if_neg h2, if_neg h3],
                by simpa using hv, by omega, by omega, by omega, by omega, fun _ => rfl⟩
        obtain ⟨marker, w, henc, hlt, hw1, hm3, hm253, hm254, hm255⟩ := hmark
        have hrest2 : buf.drop cur = marker :: (leEnc w n ++ r) := by
          rw [hrest, henc]; simp
        have hnext : BCDataStream.rest ⟨some buf, cur + 1⟩ = some (leEnc w n ++ r) := by
          simp only [BCDataStream.rest, Option.map_some', Option.some.injEq]
          have hdd : buf.drop (cur + 1) = (buf.drop cur).drop 1 := by
            rw [List.drop_drop]
          rw [hdd, hrest2]
          simp
        obtain ⟨st', hok, hrest'⟩ := readNumU_spec ⟨some buf, cur + 1⟩ w n hw1 r hlt hnext
        refine ⟨st', ?_, hrest'⟩
        simp only [BCDataStream.read_compact_size, hrest2, List.head?_cons]
        rcases hm3 with rfl | rfl | rfl
        · rw [if_pos rfl]; rw [hm253 rfl] at hok; exact hok
        · rw [if_neg (by omega), if_pos rfl]; rw [hm254 rfl] at hok; exact hok
        · rw [if_neg (by omega), if_neg (by omega), if_pos rfl]
          rw [hm255 rfl] at hok; exact hok

theorem readNumS_spec (st : BCDataStream) (w : Nat) (hw : 1 ≤ w) (v : Int)
    (hlo : -(2 : Int) ^ (8 * w - 1) ≤ v) (hhi : v < (2 : Int) ^ (8 * w - 1))
    (r : Bytes) (h : st.rest = some (intLE w v ++ r)) :
    ∃ st', BCDataStream.readNumS st w = .ok (v, st') ∧ st'.rest = some r := by
  have hmod : (v % ((2 : Int) ^ (8 * w))).toNat < 2 ^ (8 * w) := by
    have hm : (0 : Int) < 2 ^ (8 * w) := by positivity
    have h1 := Int.emod_lt_of_pos v hm
    have h2 := Int.emod_nonneg v (ne_of_gt hm)
    have hcast : (((2 : Nat) ^ (8 * w) : Nat) : Int) = (2 : Int) ^ (8 * w) := by
      push_cast; rfl
    omega
  obtain ⟨st', hok, hrest⟩ :=
    readNumU_spec st w ((v % ((2 : Int) ^ (8 * w))).toNat) hw r hmod (by rwa [intLE] at h)
  refine ⟨st', ?_, hrest⟩
  have hs : sdec w ((v % ((2 : Int) ^ (8 * w))).toNat) = v := by
    have := sdec_leDec_intLE w hw v hlo hhi
    rwa [intLE, leDec_leEnc, Nat.mod_eq_of_lt hmod] at this
  simp only [BCDataStream.readNumS, hok, hs]

/-! ## Script opcode decoding (`_script_GetOp`, `_match_decoded`)

Opcode constants: `OP_0 = 0`, `OP_PUSHDATA1/2/4 = 76/77/78`,
`OP_1NEGATE = 79`, `OP_1 = 81`, `OP_CHECKMULTISIG = 174`. -/

/-- The `(skipped-size-bytes, nSize)` bookkeeping of one push opcode in
`_script_GetOp`: a direct push pushes `opcode` bytes; `OP_PUSHDATA1/2/4`
skip and read a 1/2/4-byte little-endian size (0 when truncated, with the
cursor still advanced), tolerating truncated scripts exactly as the
source does. -/
def pushSkipLen (opcode : Byte) (rest : Bytes) : Nat × Nat :=
  if opcode = 76 then (1, if 1 ≤ rest.length then rest.headI else 0)
  else if opcode = 77 then (2, if 2 ≤ rest.length then leDec (rest.take 2) else 0)
  else if opcode = 78 then (4, if 4 ≤ rest.length then leDec (rest.take 4) else 0)
  else (0, opcode)

/-- `_script_GetOp`: decode a script into `(opcode, pushed-data)` pairs.
Data-less opcodes carry `none`; pushes carry the (possibly clamped) slice.
The generator's running index is existential plumbing and is dropped. -/
def scriptGetOp : Bytes → List (Byte × Option Bytes)
  | [] => []
  | opcode :: rest =>
      if opcode ≤ 78 then
        let sk := pushSkipLen opcode rest
        (opcode, some ((rest.drop sk.1).take sk.2))
          :: scriptGetOp (rest.drop (sk.1 + sk.2))
      else
        (opcode, none) :: scriptGetOp rest
termination_by l => l.length
decreasing_by
  all_goals simp only [List.length_cons, List.length_drop]
  all_goals omega

/-- `_match_decoded`: shape matching of a decoded script against a pattern;
`OP_PUSHDATA4` in the pattern stands for any data push with a positive
opcode. -/
def matchDecoded : List (Byte × Option Bytes) → List Byte → Bool
  | [], [] => true
  | d :: ds, m :: ms =>
      (decide (m = 78 ∧ d.1 ≤ 78 ∧ 0 < d.1) || decide (m = d.1)) && matchDecoded ds ms
  | _, _ => false

theorem scriptGetOp_nil : scriptGetOp [] = [] := by rw [scriptGetOp]

/-- A direct push (`1 ≤ n ≤ 75`) of `n` bytes decodes to one push pair. -/
theorem scriptGetOp_push (n : Nat) (h1 : 1 ≤ n) (h75 : n ≤ 75)
    (data rest : Bytes) (hlen : data.length = n) :
    scriptGetOp (n :: (data ++ rest)) = (n, some data) :: scriptGetOp rest := by
  rw [scriptGetOp]
  have h76 : ¬(n = 76) := by omega
  have h77 : ¬(n = 77) := by omega
  have h78 : ¬(n = 78) := by omega
  have hps : pushSkipLen n (data ++ rest) = (0, n) := by
    unfold pushSkipLen
    rw [if_neg h76, if_neg h77, if_neg h78]
  rw [if_pos (by omega)]
  simp only [hps, List.drop_zero, Nat.zero_add]
  rw [← hlen, List.take_left, List.drop_left]

/-- An `OP_PUSHDATA1` push of `n` bytes decodes to one push pair. -/
theorem scriptGetOp_pushdata1 (n : Nat) (data rest : Bytes)
    (hlen : data.length = n) :
    scriptGetOp (76 :: n :: (data ++ rest)) = (76, some data) :: scriptGetOp rest := by
  rw [scriptGetOp]
  have hps : pushSkipLen 76 (n :: (data ++ rest)) = (1, n) := by
    unfold pushSkipLen
    rw [if_pos rfl, if_pos (by simp)]
    rfl
  rw [if_pos (by omega)]
  simp only [hps]
  have hd1 : (n :: (data ++ rest)).drop 1 = data ++ rest := rfl
  have hdn : (n :: (data ++ rest)).drop (1 + n) = (data ++ rest).drop n := by
    have hh : 1 + n = n + 1 := by omega
    rw [hh]
    rfl
  rw [hd1, hdn, ← hlen, List.take_left, List.drop_left]

/-! ## External cryptographic and hashing primitives

The wallet calls into a vendored library (bitcoinx) for elliptic-curve
validity, public-key compression, `hash160`, BIP32 child derivation, the
legacy master-key derivation, DER-to-compact signature conversion, public
key recovery from a recoverable signature, signature verification, and the
BIP143-style signature hash.  The repository's specification explicitly
excludes these primitives; they are collected here as an abstract record
of total functions, and the development is parametric in it. -/

/-- A bitcoinx `Address`, or a `PublicKey` stored in an input's address
slot (as wallet code does for p2pk inputs). -/
inductive TxAddr
  | p2pkh (h₁ : Bytes)
  | p2sh (h₁ : Bytes)
  | pubkey (b : Bytes)
deriving DecidableEq, Repr

/-- A transaction output: a value in satoshis and a locking script
(vendored bitcoinx `TxOutput`). -/
structure TxOutput where
  value : Int
  script_pubkey : Bytes
deriving DecidableEq, Repr

/-- Arguments of the vendored `Tx.signature_hash` call made by
`Transaction.preimage_hash`: the transaction view with empty unlocking
scripts, the input index, its declared value, the preimage script, and the
sighash type byte. -/
structure SigHashArgs where
  version : Int
  inputs : List (Bytes × Nat × Nat)
  outputs : List TxOutput
  locktime : Nat
  index : Nat
  value : Int
  scriptCode : Bytes
  sigHashType : Nat
deriving DecidableEq, Repr

/-- The external (vendored-library) primitives, as an abstract record. -/
structure ExtCrypto where
  /-- Point validity checked by `PublicKey.from_bytes` on 33/65-byte keys. -/
  onCurve : Bytes → Bool
  /-- Compressed encoding of an uncompressed (`0x04`) public key. -/
  compress04 : Bytes → Bytes
  /-- `RIPEMD160 ∘ SHA256` as used for addresses. -/
  hash160 : Bytes → Bytes
  /-- Success of `bip32_key_from_string` plus the two child derivations on
  a kind-`0xff` raw. -/
  bip32Ok : Bytes → Bool
  /-- The derived public key's byte representation for a kind-`0xff` raw. -/
  bip32PubBytes : Bytes → Bytes
  /-- Success of the legacy master-key point addition on a kind-`0xfe` raw. -/
  oldOk : Bytes → Bool
  /-- The derived public key's byte representation for a kind-`0xfe` raw. -/
  oldPubBytes : Bytes → Bytes
  /-- `der_signature_to_compact`; `none` models `InvalidSignatureError`. -/
  derToCompact : Bytes → Option Bytes
  /-- `PublicKey.from_recoverable_signature (rec_sig, digest)`; `none`
  models the point-not-on-curve failures caught by the caller. -/
  recoverPub : Bytes → Bytes → Option Bytes
  /-- `verify_recoverable_signature (rec_sig, digest)` on the recovered key. -/
  verifyRec : Bytes → Bytes → Bytes → Bool
  /-- The BIP143-style `Tx.signature_hash`. -/
  sigHash : SigHashArgs → Bytes
  /-- `classify_output_script(script, coin).to_string()` as used by
  `Output.get_address_string`; `none` models a classification result
  without a string rendering. -/
  addrString : Bytes → Option (List Nat)

/-! ## `XPublicKey` -/

/-- `classify_output_script` of the vendored library, restricted to the
two script shapes it classifies as an `Address` (the only outcome accepted
by the kind-`0xfd` branch of `XPublicKey.to_public_key`).
Modelled from the spec: standard P2PKH
(`OP_DUP OP_HASH160 push20 OP_EQUALVERIFY OP_CHECKSIG`) and P2SH
(`OP_HASH160 push20 OP_EQUAL`) locking-script patterns. -/
def classifyAddressScript (script : Bytes) : Option TxAddr :=
  if script.length = 25 ∧ script.take 3 = [118, 169, 20] ∧
      script.drop 23 = [136, 172] then
    some (.p2pkh ((script.drop 3).take 20))
  else if script.length = 23 ∧ script.take 2 = [169, 20] ∧
      script.drop 22 = [135] then
    some (.p2sh ((script.drop 2).take 20))
  else
    none

/-- An `XPublicKey`: a tagged raw byte string (kinds `0x02/0x03/0x04`
raw key, `0xff` BIP32 reference, `0xfe` legacy master-key reference,
`0xfd` embedded output script). -/
structure XPublicKey where
  raw : Bytes
deriving DecidableEq, Repr

/-- The result of `XPublicKey.to_public_key`: a `PublicKey` (by its byte
representation), an `Address` (kind `0xfd`), or a failure of the
construction-time validation. -/
inductive PKA
  | pk (b : Bytes)
  | addr (a : TxAddr)
  | invalid
deriving DecidableEq, Repr

/-- `XPublicKey.to_public_key`, including the validation performed at
construction: kind and length checks, curve membership, derivability.
`invalid` corresponds to the `ValueError`/`AssertionError` rejected by
`XPublicKey.__init__`. -/
def XPublicKey.toPKA (C : ExtCrypto) (x : XPublicKey) : PKA :=
  match x.raw.head? with
  | none => .invalid
  | some kind =>
      if kind = 2 ∨ kind = 3 then
        if x.raw.length = 33 ∧ C.onCurve x.raw then .pk x.raw else .invalid
      else if kind = 4 then
        if x.raw.length = 65 ∧ C.onCurve x.raw then .pk (C.compress04 x.raw)
        else .invalid
      else if kind = 255 then
        if x.raw.length = 83 ∧ C.bip32Ok x.raw then .pk (C.bip32PubBytes x.raw)
        else .invalid
      else if kind = 254 then
        if x.raw.length = 69 ∧ C.oldOk x.raw then .pk (C.oldPubBytes x.raw)
        else .invalid
      else if kind = 253 then
        match classifyAddressScript (x.raw.drop 1) with
        | some a => .addr a
        | none => .invalid
      else .invalid

/-- Construction-time validity of an `XPublicKey` raw. -/
def xpkValid (C : ExtCrypto) (raw : Bytes) : Bool :=
  XPublicKey.toPKA C ⟨raw⟩ ≠ .invalid

/-- `XPublicKey(raw)`: validation via `to_public_key`, raising
`ValueError` on failure. -/
def mkXPublicKey (C : ExtCrypto) (raw : Bytes) : Except PyErr XPublicKey :=
  if xpkValid C raw then .ok ⟨raw⟩
  else .error (.valueError "invalid XPublicKey")

/-- `XPublicKey.to_address`: the classified address for kind `0xfd`,
otherwise the P2PKH address of the key (the vendored `hash160` and the
library's compression bookkeeping abstracted into `ExtCrypto`). -/
def XPublicKey.toAddress (C : ExtCrypto) (x : XPublicKey) : Option TxAddr :=
  match x.toPKA C with
  | .invalid => none
  | .addr a => some a
  | .pk b => some (.p2pkh (C.hash160 b))

/-- `XPublicKey.is_compressed`: every kind but `0x04` and `0xfe`. -/
def XPublicKey.isCompressed (x : XPublicKey) : Bool :=
  ¬(x.raw.head? = some 4 ∨ x.raw.head? = some 254)

/-! ## Script building (vendored push helpers, `multisig_script`) -/

/-- `push_item` of the vendored library: minimal-push encoding with the
single-opcode forms for the empty item, values 1..16 and `0x81`.
Modelled from the spec: standard minimal script pushes. -/
def pushItem (item : Bytes) : Bytes :=
  if item.length = 0 then [0]
  else if item.length = 1 then
    let v := item.headI
    if 1 ≤ v ∧ v ≤ 16 then [80 + v]
    else if v = 129 then [79]
    else [1] ++ item
  else if item.length < 76 then item.length :: item
  else if item.length ≤ 255 then [76, item.length] ++ item
  else if item.length ≤ 65535 then 77 :: leEnc 2 item.length ++ item
  else 78 :: leEnc 4 item.length ++ item

/-- Minimal little-endian magnitude bytes of a positive natural number. -/
def natLE (n : Nat) : Bytes :=
  if n = 0 then [] else (n % 256) :: natLE (n / 256)
decreasing_by exact Nat.div_lt_self (Nat.pos_of_ne_zero (by assumption)) (by omega)

/-- Signed-magnitude little-endian stack number encoding used by the
vendored `push_int` for values outside the single-opcode range. -/
def stackNumBytes (v : Int) : Bytes :=
  let mag := natLE v.natAbs
  let mag := if mag.getLast? = some 0 ∨ (mag.getLastI ≥ 128) then mag ++ [0] else mag
  if v < 0 then mag.dropLast ++ [mag.getLastI + 128] else mag

/-- `push_int` of the vendored library.
Modelled from the spec: single opcodes for 0, 1..16 and −1, otherwise a
minimal signed-magnitude little-endian push. -/
def pushInt (v : Int) : Bytes :=
  if v = 0 then [0]
  else if 1 ≤ v ∧ v ≤ 16 then [80 + v.toNat]
  else if v = -1 then [79]
  else pushItem (stackNumBytes v)

/-- `op_push`-style length prefix of `push_script` from the wallet's
byte-utility module. Modelled from the spec: data push selected by length
(the module itself is not part of this excerpt). -/
def opPush (n : Nat) : Bytes :=
  if n < 76 then [n]
  else if n < 256 then [76, n]
  else if n < 65536 then 77 :: leEnc 2 n
  else 78 :: leEnc 4 n

/-- `push_script` (byte-level). -/
def pushScriptB (s : Bytes) : Bytes := opPush s.length ++ s

/-- `multisig_script`: `OP_m`, pushed keys, `OP_n`, `OP_CHECKMULTISIG`;
asserts `1 <= threshold <= len(x_pubkeys)`.  The callers pass either
`XPublicKey`s or `PublicKey`s; both reach this as their `to_bytes` byte
strings. -/
def multisigScript (keys : List Bytes) (threshold : Int) : Except PyErr Bytes :=
  if 1 ≤ threshold ∧ threshold ≤ (keys.length : Int) then
    .ok (pushInt threshold ++ (keys.map pushItem).flatten ++
         pushInt (keys.length : Int) ++ [174])
  else .error .assertionError

/-! ## Extended transaction inputs and the deserializer -/

/-- The "no signature" sentinel `b'\xff'`. -/
def NO_SIGNATURE : Bytes := [255]

/-- `XTxInput`: a previous-output reference extended with value, candidate
keys, classification result, threshold and signature slots. -/
structure XTxInput where
  prev_hash : Bytes
  prev_idx : Nat
  script_sig : Bytes
  sequence : Nat
  value : Int
  x_pubkeys : List XPublicKey
  address : Option TxAddr
  threshold : Int
  signatures : List Bytes
deriving DecidableEq, Repr

/-- `txin_signatures_present`. -/
def txinSignaturesPresent (txin : XTxInput) : List Bytes :=
  txin.signatures.filter (fun sig => sig ≠ NO_SIGNATURE)

/-- `is_txin_complete`: present signatures reach the threshold. -/
def isTxinComplete (txin : XTxInput) : Bool :=
  txin.threshold ≤ ((txinSignaturesPresent txin).length : Int)

/-- Vendored `TxInput.is_coinbase`: all-zero previous hash with the
maximal previous index. -/
def XTxInput.isCoinbase (txin : XTxInput) : Bool :=
  txin.prev_hash = List.replicate 32 0 ∧ txin.prev_idx = 4294967295

/-- `XTxInput.type`: classification by the address slot, then coinbase,
then unknown. -/
def XTxInput.inputType (txin : XTxInput) : String :=
  match txin.address with
  | some (.p2pkh _) => "p2pkh"
  | some (.p2sh _) => "p2sh"
  | some (.pubkey _) => "p2pk"
  | _ => if txin.isCoinbase then "coinbase" else "unknown"

/-- The `kwargs` fields written by `_parse_script_sig`. -/
structure ParseSigResult where
  x_pubkeys : List XPublicKey
  address : Option TxAddr
  threshold : Int
  signatures : List Bytes
deriving DecidableEq, Repr

instance : Inhabited ParseSigResult := ⟨⟨[], none, 0, []⟩⟩

/-- A helper `bind` reduction for `Except` (do-notation plumbing). -/
theorem exceptBind_ok {α β : Type} (a : α) (f : α → Except PyErr β) :
    (Except.ok a >>= f) = f a := rfl

theorem exceptBind_err {α β : Type} (e : PyErr) (f : α → Except PyErr β) :
    ((Except.error e : Except PyErr α) >>= f) = .error e := rfl

/-- Sequential effectful map over `Except` (a Python `for` loop building
a list, stopping at the first raised exception). -/
def exceptMapM {α β : Type} (f : α → Except PyErr β) : List α → Except PyErr (List β)
  | [] => .ok []
  | a :: t =>
      match f a with
      | .error e => .error e
      | .ok b =>
          match exceptMapM f t with
          | .error e => .error e
          | .ok bs => .ok (b :: bs)

/-- `XPublicKey(x[1])` on a decoded push: a `None` payload raises
`TypeError`, an invalid raw raises `ValueError`. -/
def mkXPublicKeyOfPush (C : ExtCrypto) (vch : Option Bytes) :
    Except PyErr XPublicKey :=
  match vch with
  | none => .error .typeError
  | some b => mkXPublicKey C b

/-- `_parse_script_sig`: match a P2PK single push, a P2PKH
signature-plus-key pair, or an `OP_0`-led P2SH multisig; any other shape
logs an error and leaves the fields unset (the default result).
Exceptions raised while constructing `XPublicKey`s or rebuilding the
multisig redeem script propagate to the caller, as in the source (only
the opcode decode itself is guarded by `try`). -/
def parseScriptSig (C : ExtCrypto) (script : Bytes) :
    Except PyErr ParseSigResult :=
  let decoded := scriptGetOp script
  if matchDecoded decoded [78] then
    .ok ⟨[], none, 1, [(decoded.headI).2.getD []]⟩
  else if matchDecoded decoded [78, 78] then do
    let sig := (decoded.headI).2.getD []
    let xpk ← mkXPublicKeyOfPush C (decoded.getD 1 (0, none)).2
    .ok ⟨[xpk], xpk.toAddress C, 1, [sig]⟩
  else
    if ¬ matchDecoded decoded (0 :: List.replicate (decoded.length - 1) 78) then
      .ok default
    else
      match decoded.getLast? with
      | none => .ok default
      | some dlast => do
          let dec2 := scriptGetOp (dlast.2.getD [])
          let xpks ← exceptMapM (fun x => mkXPublicKeyOfPush C x.2)
            ((dec2.drop 1).dropLast.dropLast)
          match dec2.head?, dec2.dropLast.getLast? with
          | some d0, some dm2 =>
              let m : Int := (d0.1 : Int) - 81 + 1
              let n : Int := (dm2.1 : Int) - 81 + 1
              let matchMS := d0.1 :: (List.replicate n.toNat 78 ++ [dm2.1, 174])
              if ¬ matchDecoded dec2 matchMS then .ok default
              else do
                let redeem ← multisigScript (xpks.map XPublicKey.raw) m
                .ok ⟨xpks, some (.p2sh (C.hash160 redeem)), m,
                     ((decoded.drop 1).dropLast).map (fun x => x.2.getD [])⟩
          | _, _ => .error .indexError

/-- `_parse_input`: outpoint, script, sequence; classify non-coinbase
scripts; read the trailing wallet-internal value field for inputs that
are not yet complete. -/
def parseInput (C : ExtCrypto) (st : BCDataStream) :
    Except PyErr (XTxInput × BCDataStream) := do
  let (prev_hash, st) ← st.read_bytes 32
  let (prev_idx, st) ← st.read_uint32
  let (slen, st) ← st.read_compact_size
  let (script_sig, st) ← st.read_bytes slen
  let (sequence, st) ← st.read_uint32
  let kw ← if prev_hash ≠ List.replicate 32 0 then parseScriptSig C script_sig
           else .ok default
  let txin0 : XTxInput :=
    ⟨prev_hash, prev_idx, script_sig, sequence, 0,
     kw.x_pubkeys, kw.address, kw.threshold, kw.signatures⟩
  if isTxinComplete txin0 then .ok (txin0, st)
  else do
    let (v, st) ← st.read_uint64
    .ok ({ txin0 with value := (v : Int) }, st)

/-- Iterated `_parse_input` (the deserializer's input loop). -/
def parseInputs (C : ExtCrypto) :
    Nat → BCDataStream → Except PyErr (List XTxInput × BCDataStream)
  | 0, st => .ok ([], st)
  | k + 1, st => do
      let (i, st) ← parseInput C st
      let (is, st) ← parseInputs C k st
      .ok (i :: is, st)

/-- `read_varint` of the vendored library, driven by `read_bytes` (so a
drained stream raises `IndexError` from `read(1)[0]`).
Modelled from the spec: the standard compact-size scheme. -/
def readVarintB (st : BCDataStream) : Except PyErr (Nat × BCDataStream) := do
  let (b, st) ← st.read_bytes 1
  match b with
  | [] => .error .indexError
  | n :: _ =>
      if n < 253 then .ok (n, st)
      else do
        let w := if n = 253 then 2 else if n = 254 then 4 else 8
        let (bs, st) ← st.read_bytes w
        if bs.length = w then .ok (leDec bs, st) else .error .structError

/-- `TxOutput.read` of the vendored library: a signed little-endian
`int64` value and a var-bytes script.
Modelled from the spec: outputs are `(int64 value,
compact-size-prefixed script)` pairs. -/
def readOutput (st : BCDataStream) : Except PyErr (TxOutput × BCDataStream) := do
  let (bs, st) ← st.read_bytes 8
  if bs.length = 8 then do
    let (n, st) ← readVarintB st
    let (script, st) ← st.read_bytes n
    if script.length = n then .ok (⟨sdec 8 (leDec bs), script⟩, st)
    else .error .structError
  else .error .structError

/-- Iterated `TxOutput.read`. -/
def readOutputN :
    Nat → BCDataStream → Except PyErr (List TxOutput × BCDataStream)
  | 0, st => .ok ([], st)
  | k + 1, st => do
      let (o, st) ← readOutput st
      let (os, st) ← readOutputN k st
      .ok (o :: os, st)

/-- `read_list(vds.read_bytes, TxOutput.read)` of the vendored library:
a compact-size count followed by that many outputs. -/
def readOutputs (st : BCDataStream) :
    Except PyErr (List TxOutput × BCDataStream) := do
  let (count, st) ← readVarintB st
  readOutputN count st

/-- The dictionary returned by `deserialize`. -/
structure ParsedTx where
  version : Int
  inputs : List XTxInput
  outputs : List TxOutput
  lockTime : Nat
deriving DecidableEq, Repr

/-- `deserialize(raw)` (at the byte level, after `bfh`): version, inputs
(count asserted non-zero), outputs, locktime. -/
def deserializeRaw (C : ExtCrypto) (raw : Bytes) : Except PyErr ParsedTx := do
  let st : BCDataStream := BCDataStream.write ⟨none, 0⟩ raw
  let (version, st) ← st.read_int32
  let (nVin, st) ← st.read_compact_size
  if nVin = 0 then .error .assertionError
  else do
    let (inputs, st) ← parseInputs C nVin st
    let (outputs, st) ← readOutputs st
    let (lockTime, _) ← st.read_uint32
    .ok ⟨version, inputs, outputs, lockTime⟩

/-! ## The serializer -/

/-- `XPublicKey(x_pubkey.to_public_key().to_bytes())`: the realisation of
an extended key into its plain public-key bytes performed by
`get_siglist` on complete inputs.  A kind-`0xfd` key realises to an
`Address`, on which the public-key byte conversion is not available
(modelled as `TypeError`; wallet data never reaches this). -/
def realizeXpk (C : ExtCrypto) (x : XPublicKey) : Except PyErr XPublicKey :=
  match x.toPKA C with
  | .pk b => mkXPublicKey C b
  | .addr _ => .error .typeError
  | .invalid => .error (.valueError "invalid XPublicKey")

/-- `Transaction.get_siglist` with `estimate_size=False` (the
fee-estimation variant with placeholder signatures is not exercised by
any checked claim and is not modelled): complete inputs realise their
extended keys and drop sentinel slots, incomplete inputs pass their
slots through. -/
def getSiglist (C : ExtCrypto) (txin : XTxInput) :
    Except PyErr (List XPublicKey × List Bytes) :=
  if isTxinComplete txin then do
    let xpks ← exceptMapM (realizeXpk C) txin.x_pubkeys
    .ok (xpks, txinSignaturesPresent txin)
  else .ok (txin.x_pubkeys, txin.signatures)

/-- `Transaction.input_script` (with `estimate_size=False`): passthrough
for coinbase/unknown inputs, pushed signatures plus pushed key for
p2pkh, `OP_0` plus signatures plus pushed redeem script for p2sh, bare
signature pushes for p2pk. -/
def inputScript (C : ExtCrypto) (txin : XTxInput) : Except PyErr Bytes :=
  let t := txin.inputType
  if t = "coinbase" ∨ t = "unknown" then .ok txin.script_sig
  else do
    let (xpks, sigList) ← getSiglist C txin
    let script := (sigList.map pushItem).flatten
    if t = "p2sh" then do
      let redeem ← multisigScript (xpks.map XPublicKey.raw) txin.threshold
      .ok (0 :: (script ++ pushScriptB redeem))
    else if t = "p2pkh" then
      match xpks.head? with
      | none => .error .indexError
      | some x0 => .ok (script ++ pushScriptB x0.raw)
    else .ok script

/-- `Transaction.serialize_input`: outpoint, length-prefixed script,
sequence, and the wallet-internal value field for incomplete inputs. -/
def serializeInput (txin : XTxInput) (script : Bytes) : Bytes :=
  txin.prev_hash ++ intLE 4 (txin.prev_idx : Int) ++ varInt script.length ++
    script ++ intLE 4 (txin.sequence : Int) ++
    (if isTxinComplete txin then [] else intLE 8 txin.value)

/-- `TxOutput.to_bytes` of the vendored library: packed signed `int64`
value (range-checked by `struct.pack`) and var-bytes script.
Modelled from the spec's output wire format. -/
def TxOutput.toBytesB (o : TxOutput) : Except PyErr Bytes :=
  if -((2 : Int) ^ 63) ≤ o.value ∧ o.value < (2 : Int) ^ 63 then
    .ok (intLE 8 o.value ++ varInt o.script_pubkey.length ++ o.script_pubkey)
  else .error .structError

/-- The in-memory `Transaction`: parsed fields plus the raw cache
(`none` when invalidated by a mutation). -/
structure Transaction where
  version : Int
  txInputs : List XTxInput
  txOutputs : List TxOutput
  locktime : Nat
  raw : Option Bytes
deriving DecidableEq, Repr

/-- `Transaction.serialize()` (at the byte level, `estimate_size=False`). -/
def Transaction.serialize (C : ExtCrypto) (tx : Transaction) :
    Except PyErr Bytes := do
  let inParts ← exceptMapM (fun txin => do
      let s ← inputScript C txin
      (.ok (serializeInput txin s) : Except PyErr Bytes)) tx.txInputs
  let outParts ← exceptMapM TxOutput.toBytesB tx.txOutputs
  .ok (intLE 4 tx.version ++ varInt tx.txInputs.length ++ inParts.flatten ++
       varInt tx.txOutputs.length ++ outParts.flatten ++
       intLE 4 (tx.locktime : Int))

/-- `Transaction.signature_count`: the running
`(present signatures, thresholds)` totals `(s, r)` over all inputs. -/
def Transaction.signature_count (tx : Transaction) : Nat × Int :=
  tx.txInputs.foldl
    (fun acc txin =>
      (acc.1 + (txinSignaturesPresent txin).length, acc.2 + txin.threshold))
    (0, 0)

/-- `Transaction.is_complete`: `r == s` on the totals. -/
def Transaction.is_complete (tx : Transaction) : Bool :=
  let sc := tx.signature_count
  sc.2 = (sc.1 : Int)

/-! ## Preimage hashing and `update_signatures` -/

/-- `PublicKey.to_bytes` on the union returned by `to_public_key`
(an `Address` has no such conversion). -/
def pkaToBytes : PKA → Except PyErr Bytes
  | .pk b => .ok b
  | .addr _ => .error .typeError
  | .invalid => .error (.valueError "invalid XPublicKey")

/-- `Transaction.get_preimage_script`: the script committed to by the
signature — the address's locking script for p2pkh, the rebuilt multisig
redeem script for p2sh, a constructed pay-to-key script for p2pk, and a
fatal `RuntimeError` otherwise. -/
def getPreimageScript (C : ExtCrypto) (txin : XTxInput) : Except PyErr Bytes :=
  let t := txin.inputType
  if t = "p2pkh" then
    match txin.address with
    | some (.p2pkh h₁) => .ok ([118, 169] ++ pushItem h₁ ++ [136, 172])
    | _ => .error .typeError
  else if t = "p2sh" then do
    let pubBytes ← exceptMapM (fun x => pkaToBytes (x.toPKA C)) txin.x_pubkeys
    multisigScript pubBytes txin.threshold
  else if t = "p2pk" then
    match txin.x_pubkeys.head? with
    | none => .error .indexError
    | some x0 => do
        let b ← pkaToBytes (x0.toPKA C)
        .ok (pushItem b ++ [172])
  else .error (.runtimeError "Unknown txin type")

/-- `Transaction.nHashType`: `0x01 | SIGHASH_FORKID = 0x41`. -/
def nHashType : Nat := 1 ||| 64

/-- `Transaction.preimage_hash`: locate the input, build the empty-script
transaction view, and hash with the input's value and the preimage
script under sighash `0x41` (the vendored `signature_hash` abstracted
into `ExtCrypto.sigHash`). -/
def preimageHash (C : ExtCrypto) (tx : Transaction) (txin : XTxInput) :
    Except PyErr Bytes :=
  if txin ∈ tx.txInputs then do
    let scriptCode ← getPreimageScript C txin
    .ok (C.sigHash
      ⟨tx.version, tx.txInputs.map (fun t => (t.prev_hash, t.prev_idx, t.sequence)),
       tx.txOutputs, tx.locktime, tx.txInputs.indexOf txin, txin.value,
       scriptCode, nHashType⟩)
  else .error (.valueError "txin is not in the input list")

/-- The recovery-id loop of `update_signatures`: recover a candidate key
for each of the four recovery ids, skip ids whose point is not on the
curve, skip recovered keys outside the candidate set or failing
verification, and return the index of the first verified candidate. -/
def tryRecids (C : ExtCrypto) (pubkeys : List PKA) (base preHash : Bytes) :
    List Nat → Option Nat
  | [] => none
  | recid :: restIds =>
      match C.recoverPub (base ++ [recid]) preHash with
      | none => tryRecids C pubkeys base preHash restIds
      | some pub =>
          if (PKA.pk pub) ∈ pubkeys then
            if C.verifyRec (base ++ [recid]) preHash pub then
              some (pubkeys.indexOf (PKA.pk pub))
            else tryRecids C pubkeys base preHash restIds
          else tryRecids C pubkeys base preHash restIds

/-- The body of `update_signatures` for one `(txin, signature)` pair:
skip when the full signature is already present, otherwise recover the
signing key and install the full signature in that key's slot
(`add_signature_to_txin`).  A malformed DER signature raises
`InvalidSignatureError` from `der_signature_to_compact`. -/
def updateOneSig (C : ExtCrypto) (tx : Transaction) (txin : XTxInput)
    (signature : Bytes) : Except PyErr XTxInput :=
  let fullSig := signature ++ [nHashType]
  if fullSig ∈ txin.signatures then .ok txin
  else
    match preimageHash C tx txin with
    | .error e => .error e
    | .ok preHash =>
        match C.derToCompact signature with
        | none => .error .invalidSignatureError
        | some base =>
            let pubkeys := txin.x_pubkeys.map (XPublicKey.toPKA C)
            match tryRecids C pubkeys base preHash [0, 1, 2, 3] with
            | none => .ok txin
            | some j => .ok { txin with signatures := txin.signatures.set j fullSig }

/-- The in-order mutation loop of `update_signatures`: the source mutates
`self._inputs[i]` in place, so later inputs see earlier installs; this is
threaded through the accumulated transaction state. -/
def updateSignaturesLoop (C : ExtCrypto) :
    Transaction → Nat → List Bytes → Except PyErr Transaction
  | tx, _, [] => .ok tx
  | tx, i, sig :: restSigs =>
      match tx.txInputs.get? i with
      | none => .ok tx
      | some txin =>
          match updateOneSig C tx txin sig with
          | .error e => .error e
          | .ok txin' =>
              updateSignaturesLoop C { tx with txInputs := tx.txInputs.set i txin' }
                (i + 1) restSigs

/-- `Transaction.update_signatures(signatures)`: a no-op on complete
transactions; `RuntimeError` when the list length differs from the input
count (before touching any input); otherwise install recovered
signatures per input and rebuild the raw cache. -/
def Transaction.update_signatures (C : ExtCrypto) (tx : Transaction)
    (signatures : List Bytes) : Except PyErr Transaction :=
  if tx.is_complete then .ok tx
  else if tx.txInputs.length ≠ signatures.length then
    .error (.runtimeError "expected len(inputs) signatures; got len(signatures)")
  else
    match updateSignaturesLoop C tx 0 signatures with
    | .error e => .error e
    | .ok tx' =>
        match tx'.serialize C with
        | .error e => .error e
        | .ok raw => .ok { tx' with raw := some raw }

/-! ## The BIP270-style payment-request subsystem

Python strings are lists of code points (`PyStr`); JSON documents parsed
by the standard-library `json` module are `JVal` trees. -/

/-- A Python string, as its code points. -/
abbrev PyStr := List Nat

/-- A parsed JSON value (the result of `json.loads`). -/
inductive JVal
  | jnull
  | jbool (b : Bool)
  | jint (n : Int)
  | jstr (s : PyStr)
  | jarr (xs : List JVal)
  | jobj (kvs : List (PyStr × JVal))

/-- Python dict lookup (`d.get(k)`); keys are unique in a parsed JSON
object, so first-match lookup is exact. -/
def jlookup (kvs : List (PyStr × JVal)) (k : PyStr) : Option JVal :=
  match kvs.find? (fun kv => kv.1 = k) with
  | some kv => some kv.2
  | none => none

/-- Python dict assignment `d[k] = v`. -/
def dictSet {α : Type} (kvs : List (PyStr × α)) (k : PyStr) (v : α) :
    List (PyStr × α) :=
  if (kvs.find? (fun kv => kv.1 = k)).isSome then
    kvs.map (fun kv => if kv.1 = k then (k, v) else kv)
  else kvs ++ [(k, v)]

/-- The wire-exact JSON field names (as code points). -/
def strScript : PyStr := [115, 99, 114, 105, 112, 116]
def strAmount : PyStr := [97, 109, 111, 117, 110, 116]
def strDescription : PyStr := [100, 101, 115, 99, 114, 105, 112, 116, 105, 111, 110]
def strNetwork : PyStr := [110, 101, 116, 119, 111, 114, 107]
def strBitcoin : PyStr := [98, 105, 116, 99, 111, 105, 110]
def strOutputs : PyStr := [111, 117, 116, 112, 117, 116, 115]
def strCreationTimestamp : PyStr :=
  [99, 114, 101, 97, 116, 105, 111, 110, 84, 105, 109, 101, 115, 116, 97, 109, 112]
def strExpirationTimestamp : PyStr :=
  [101, 120, 112, 105, 114, 97, 116, 105, 111, 110, 84, 105, 109, 101, 115,
   116, 97, 109, 112]
def strMemo : PyStr := [109, 101, 109, 111]
def strPaymentUrl : PyStr := [112, 97, 121, 109, 101, 110, 116, 85, 114, 108]
def strMerchantData : PyStr := [109, 101, 114, 99, 104, 97, 110, 116, 68, 97, 116, 97]

/-! ### Hexadecimal strings (`bytes.hex` / `Script.from_hex`) -/

/-- A lowercase hex digit's code point. -/
def hexDigit (d : Nat) : Nat := if d < 10 then 48 + d else 87 + d

/-- `bytes.hex()` / `Script.to_hex()`. -/
def hexEncode (bs : Bytes) : PyStr :=
  (bs.map (fun b => [hexDigit (b / 16), hexDigit (b % 16)])).flatten

/-- One hex digit's value; `none` for a non-hex code point. -/
def hexDigitVal (c : Nat) : Option Nat :=
  if 48 ≤ c ∧ c ≤ 57 then some (c - 48)
  else if 97 ≤ c ∧ c ≤ 102 then some (c - 87)
  else if 65 ≤ c ∧ c ≤ 70 then some (c - 55)
  else none

/-- `bytes.fromhex` (as called by `Script.from_hex`), raising
`ValueError` on odd length or a non-hex character. -/
def hexDecode : PyStr → Except PyErr Bytes
  | [] => .ok []
  | [_] => .error (.valueError "non-hexadecimal or odd-length string")
  | c1 :: c2 :: rest =>
      match hexDigitVal c1, hexDigitVal c2 with
      | some d1, some d2 =>
          match hexDecode rest with
          | .ok bs => .ok ((16 * d1 + d2) :: bs)
          | .error e => .error e
      | _, _ => .error (.valueError "non-hexadecimal or odd-length string")

/-! ### The `Output` wrapper -/

/-- The per-character length contribution of Python's
`json.dumps` string encoder (`ensure_ascii=True`): quote and backslash
escape to two characters, the five short control escapes to two, other
control and all non-ASCII code points to `\uXXXX` (twelve for an astral
code point's surrogate pair). -/
def jsonCharLen (c : Nat) : Nat :=
  if c = 34 ∨ c = 92 then 2
  else if c = 8 ∨ c = 9 ∨ c = 10 ∨ c = 12 ∨ c = 13 then 2
  else if c < 32 then 6
  else if c < 127 then 1
  else if c < 65536 then 6
  else 12

/-- `len(json.dumps(s))` for a Python string `s`: the two enclosing
quotes plus each character's encoded length. -/
def jsonStrLen (s : PyStr) : Nat := 2 + (s.map jsonCharLen).sum

/-- The payment-protocol `Output` wrapper: script, optional amount,
optional description. -/
structure OutputP where
  script : Bytes
  amount : Option Int
  description : Option PyStr
deriving DecidableEq, Repr

/-- `Output.__init__`: rejects a description whose JSON encoding is
longer than 100 characters. -/
def mkOutputP (script : Bytes) (amount : Option Int)
    (description : Option PyStr) : Except PyErr OutputP :=
  match description with
  | some d =>
      if jsonStrLen d > 100 then .error (.bip270 "Output description too long")
      else .ok ⟨script, amount, some d⟩
  | none => .ok ⟨script, amount, none⟩

/-- `Output.from_dict`: requires `script`; `amount` must be absent, null
or an integer; `description` absent, null or a string; then constructs
the `Output` (decoding the hex script, validating the description). -/
def OutputP.fromDict (d : JVal) : Except PyErr OutputP :=
  match d with
  | .jobj kvs =>
      match jlookup kvs strScript with
      | none => .error (.bip270 "Missing required 'script' field")
      | some scriptV =>
          let amountE : Except PyErr (Option Int) :=
            match jlookup kvs strAmount with
            | none => .ok none
            | some .jnull => .ok none
            | some (.jint a) => .ok (some a)
            | some _ => .error (.bip270 "Invalid 'amount' field")
          match amountE with
          | .error e => .error e
          | .ok amount =>
              let descE : Except PyErr (Option PyStr) :=
                match jlookup kvs strDescription with
                | none => .ok none
                | some .jnull => .ok none
                | some (.jstr s) => .ok (some s)
                | some _ => .error (.bip270 "Invalid 'description' field")
              match descE with
              | .error e => .error e
              | .ok description =>
                  match scriptV with
                  | .jstr hexs =>
                      match hexDecode hexs with
                      | .ok script => mkOutputP script amount description
                      | .error e => .error e
                  | _ => .error .typeError
  | _ => .error .typeError

/-- `Output.to_dict`: always the hex script; the amount only when truthy
(a non-zero integer); the description only when truthy (non-empty). -/
def OutputP.toDict (o : OutputP) : JVal :=
  .jobj ([(strScript, .jstr (hexEncode o.script))] ++
    (match o.amount with
     | some a => if a ≠ 0 then [(strAmount, .jint a)] else []
     | none => []) ++
    (match o.description with
     | some d => if d ≠ [] then [(strDescription, .jstr d)] else []
     | none => []))

/-! ### `PaymentRequest.from_json` -/

/-- The JSON string handed to `PaymentRequest.from_json`: its Python
length (checked against the size ceiling before parsing) and the result
of `json.loads` on it (`JSONDecodeError` is a `ValueError`).  The
standard-library parser itself is external to the repository. -/
structure PyJsonDoc where
  length : Nat
  loads : Except PyErr JVal

/-- The fields of a parsed `PaymentRequest` relevant to `from_json`. -/
structure PaymentRequestData where
  outputs : List OutputP
  creation_timestamp : Int
  expiration_timestamp : Option Int
  memo : Option PyStr
  payment_url : Option PyStr
  merchant_data : Option PyStr
deriving DecidableEq, Repr

/-- `PaymentRequest.from_json`: the 10,000,000 ceiling on the input's
length, the `network == "bitcoin"` gate, the required-list `outputs`
gate, per-output parsing, then the required-integer `creationTimestamp`
and the optional typed fields — each violation a distinct
`Bip270Exception`. -/
def PaymentRequest.fromJson (doc : PyJsonDoc) :
    Except PyErr PaymentRequestData :=
  if doc.length > 10000000 then
    .error (.bip270 "Invalid payment request, too large")
  else
    match doc.loads with
    | .error e => .error e
    | .ok (.jobj kvs) =>
        match jlookup kvs strNetwork with
        | some (.jstr s) =>
            if s ≠ strBitcoin then .error (.bip270 "Invalid json network")
            else
              match jlookup kvs strOutputs with
              | none => .error (.bip270 "Missing required json 'outputs' field")
              | some (.jarr xs) =>
                  (match exceptMapM OutputP.fromDict xs with
                   | .error e => .error e
                   | .ok outputs =>
                       match jlookup kvs strCreationTimestamp with
                       | none =>
                           .error (.bip270 "Missing required json 'creationTimestamp' field")
                       | some (.jint c) =>
                           (match jlookup kvs strExpirationTimestamp with
                            | none => .ok none
                            | some .jnull => .ok none
                            | some (.jint e₁) => .ok (some e₁)
                            | some _ =>
                                .error (.bip270 "Invalid json 'expirationTimestamp' field")
                            : Except PyErr (Option Int)).bind (fun expiration =>
                           (match jlookup kvs strMemo with
                            | none => .ok none
                            | some .jnull => .ok none
                            | some (.jstr m) => .ok (some m)
                            | some _ => .error (.bip270 "Invalid json 'memo' field")
                            : Except PyErr (Option PyStr)).bind (fun memo =>
                           (match jlookup kvs strPaymentUrl with
                            | none => .ok none
                            | some .jnull => .ok none
                            | some (.jstr u) => .ok (some u)
                            | some _ => .error (.bip270 "Invalid json 'paymentUrl' field")
                            : Except PyErr (Option PyStr)).bind (fun url =>
                           (match jlookup kvs strMerchantData with
                            | none => .ok none
                            | some .jnull => .ok none
                            | some (.jstr m) => .ok (some m)
                            | some _ => .error (.bip270 "Invalid json 'merchantData' field")
                            : Except PyErr (Option PyStr)).bind (fun merchant =>
                           .ok ⟨outputs, c, expiration, memo, url, merchant⟩))))
                       | some _ =>
                           .error (.bip270 "Invalid json 'creationTimestamp' field"))
              | some _ => .error (.bip270 "Invalid json 'outputs' field")
        | some _ => .error (.bip270 "Invalid json network")
        | none => .error (.bip270 "Invalid json network")
    | .ok _ => .error (.attributeError "get")

/-! ### The `InvoiceStore` -/

/-- The state of a stored `PaymentRequest` that the invoice store
reads and writes: the random hex id, the requestor identity, the paid
transaction id, and the outputs (for the address-derived id). -/
structure PRState where
  prid : PyStr
  requestor : Option PyStr
  tx : Option PyStr
  outputs : List OutputP
deriving DecidableEq, Repr

/-- `Output.get_address_string` (vendored classification and address
rendering abstracted into `ExtCrypto.addrString`). -/
def PRState.getAddressString (C : ExtCrypto) (pr : PRState) :
    Except PyErr PyStr :=
  match pr.outputs.head? with
  | none => .error .indexError
  | some o =>
      match C.addrString o.script with
      | some s => .ok s
      | none => .error (.attributeError "to_string")

/-- `PaymentRequest.get_id`: the random id when a requestor identity is
set (truthy), otherwise the first output's address string. -/
def PRState.getId (C : ExtCrypto) (pr : PRState) : Except PyErr PyStr :=
  match pr.requestor with
  | some r => if r ≠ [] then .ok pr.prid else pr.getAddressString C
  | none => pr.getAddressString C

/-- The `InvoiceStore`: the caller-supplied wallet-data mapping kept in
the `_wallet_data` attribute, the id-to-invoice map and the paid map. -/
structure InvoiceStore where
  _walletData : List (PyStr × JVal)
  invoices : List (PyStr × PRState)
  paid : List (PyStr × PyStr)

/-- `InvoiceStore.save`: the method assigns through `self.wallet_data`,
but `__init__` stores the mapping in `self._wallet_data` and no
`wallet_data` attribute or property exists on the class, so the
attribute lookup raises `AttributeError` before anything is written. -/
def InvoiceStore.save (_s : InvoiceStore) : Except PyErr InvoiceStore :=
  .error (.attributeError "wallet_data")

/-- `InvoiceStore.set_paid`: set the request's `tx` field and record the
paid-map entry.  No call to `save` is made. -/
def InvoiceStore.set_paid (C : ExtCrypto) (s : InvoiceStore) (pr : PRState)
    (txid : PyStr) : Except PyErr (InvoiceStore × PRState) :=
  let pr' := { pr with tx := some txid }
  match pr'.getId C with
  | .error e => .error e
  | .ok key => .ok ({ s with paid := dictSet s.paid txid key }, pr')

/-- `InvoiceStore.add`: insert the invoice under its id, then `save`. -/
def InvoiceStore.add (C : ExtCrypto) (s : InvoiceStore) (pr : PRState) :
    Except PyErr (InvoiceStore × PyStr) :=
  match pr.getId C with
  | .error e => .error e
  | .ok key =>
      let s1 := { s with invoices := dictSet s.invoices key pr }
      match s1.save with
      | .error e => .error e
      | .ok s2 => .ok (s2, key)

/-- `InvoiceStore.remove`: scrub the first paid-map entry referencing the
id, pop the invoice (`KeyError` when absent), then `save`. -/
def InvoiceStore.remove (s : InvoiceStore) (key : PyStr) :
    Except PyErr InvoiceStore :=
  let paid' :=
    match s.paid.find? (fun p => p.2 = key) with
    | some p => s.paid.eraseP (fun q => q.1 = p.1)
    | none => s.paid
  if (s.invoices.find? (fun kv => kv.1 = key)).isSome then
    let s1 : InvoiceStore :=
      { s with paid := paid',
               invoices := s.invoices.filter (fun kv => kv.1 ≠ key) }
    s1.save
  else .error .keyError

/-! ## The Ledger plugin's positional signature parser -/

/-- Python sequence indexing `b[i]` (non-negative index). -/
def pyIndex (l : Bytes) (i : Nat) : Except PyErr Nat :=
  match l.get? i with
  | some b => .ok b
  | none => .error .indexError

/-- The ASN.1-like positional parse at the end of
`Ledger_KeyStore.sign_message`: `r`'s declared length at offset 3, `s`'s
at `4 + rLength + 1`, one leading byte stripped from each exactly when
its declared length is 33, and the header byte
`27 + 4 + (signature[0] & 0x01)` prepended. -/
def parseLedgerSig (sig : Bytes) : Except PyErr Bytes := do
  let rLength ← pyIndex sig 3
  let r0 := (sig.drop 4).take rLength
  let sLength ← pyIndex sig (4 + rLength + 1)
  let s0 := sig.drop (4 + rLength + 2)
  let r1 := if rLength = 33 then r0.drop 1 else r0
  let s1 := if sLength = 33 then s0.drop 1 else s0
  let b0 ← pyIndex sig 0
  .ok ((27 + 4 + (b0 % 2)) :: (r1 ++ s1))

/-! ## Concrete instantiation of the external primitives

Used by witnesses; every theorem is proved for an arbitrary `ExtCrypto`. -/

/-- A concrete executable stand-in for the external primitives. -/
def C0 : ExtCrypto where
  onCurve := fun _ => true
  compress04 := fun b => b
  hash160 := fun _ => List.replicate 20 0
  bip32Ok := fun _ => true
  bip32PubBytes := fun _ => []
  oldOk := fun _ => true
  oldPubBytes := fun _ => []
  derToCompact := fun s => some s
  recoverPub := fun _ _ => none
  verifyRec := fun _ _ _ => true
  sigHash := fun _ => []
  addrString := fun _ => some [97]

/-! ## C1: global completeness totals -/

/-- The total number of present (non-sentinel) signatures over all inputs. -/
def totalPresent (tx : Transaction) : Nat :=
  (tx.txInputs.map (fun t => (txinSignaturesPresent t).length)).sum

/-- The total of all inputs' thresholds. -/
def totalThreshold (tx : Transaction) : Int :=
  (tx.txInputs.map XTxInput.threshold).sum

theorem signature_count_foldl (l : List XTxInput) (a : Nat) (b : Int) :
    l.foldl
      (fun acc txin =>
        (acc.1 + (txinSignaturesPresent txin).length, acc.2 + txin.threshold))
      (a, b)
    = (a + (l.map (fun t => (txinSignaturesPresent t).length)).sum,
       b + (l.map XTxInput.threshold).sum) := by
  induction l generalizing a b with
  | nil => simp
  | cons hd tl ih =>
      simp only [List.foldl_cons, ih, List.map_cons, List.sum_cons,
        Prod.mk.injEq]
      constructor
      · omega
      · ring

/-- C1 (amended): `signature_count()` returns the pair
`(total present signatures, total thresholds)` summed across all inputs,
and `is_complete()` returns true exactly when the two totals are *equal*
(the source compares `r == s`, not `s >= r`). -/
theorem is_complete_iff_totals_equal (tx : Transaction) :
    tx.signature_count = (totalPresent tx, totalThreshold tx) ∧
      (tx.is_complete = true ↔ totalThreshold tx = (totalPresent tx : Int)) := by
  have hsc : tx.signature_count = (totalPresent tx, totalThreshold tx) := by
    rw [Transaction.signature_count, signature_count_foldl]
    simp [totalPresent, totalThreshold]
  refine ⟨hsc, ?_⟩
  rw [Transaction.is_complete, hsc]
  simp

/-- An over-signed transaction: one input with threshold 1 carrying two
present signatures. -/
def txOverSigned : Transaction :=
  ⟨1, [⟨List.replicate 32 1, 0, [], 0, 0, [], none, 1, [[1], [2]]⟩],
   [], 0, none⟩

/-- C1 counterexample: a transaction whose total present-signature count
(2) exceeds its total threshold (1) is *not* complete — `is_complete`
tests `r == s`, so exceeding the threshold falsifies the claimed
"greater than or equal" characterisation. -/
theorem overSigned_is_not_complete :
    txOverSigned.signature_count = (2, 1) ∧
      totalThreshold txOverSigned ≤ (totalPresent txOverSigned : Int) ∧
      txOverSigned.is_complete = false := by
  refine ⟨by rfl, by decide, by rfl⟩

/-! ## C10: `update_signatures` guards -/

/-- C10: `update_signatures` on an already-complete transaction returns
immediately with no state change regardless of the supplied list; on an
incomplete transaction whose signature list's length differs from the
input count it raises `RuntimeError` before any input is modified. -/
theorem update_signatures_guards (C : ExtCrypto) (tx : Transaction)
    (sigs : List Bytes) :
    (tx.is_complete = true → tx.update_signatures C sigs = .ok tx) ∧
    (tx.is_complete = false → tx.txInputs.length ≠ sigs.length →
      tx.update_signatures C sigs =
        .error (.runtimeError "expected len(inputs) signatures; got len(signatures)")) := by
  constructor
  · intro h
    simp [Transaction.update_signatures, h]
  · intro h hlen
    simp [Transaction.update_signatures, h, hlen]

/-- A trivially complete transaction (no inputs: both totals are 0). -/
def txNoInputs : Transaction := ⟨1, [], [], 0, none⟩

/-- An incomplete single-input transaction (one empty signature slot). -/
def txOneUnsigned : Transaction :=
  ⟨1, [⟨List.replicate 32 1, 0, [], 0, 0, [], none, 1, [NO_SIGNATURE]⟩],
   [], 0, none⟩

theorem update_signatures_guards_witness :
    txNoInputs.is_complete = true ∧
      txNoInputs.update_signatures C0 [[1]] = .ok txNoInputs ∧
      txOneUnsigned.is_complete = false ∧
      txOneUnsigned.txInputs.length ≠ ([] : List Bytes).length ∧
      txOneUnsigned.update_signatures C0 [] =
        .error (.runtimeError "expected len(inputs) signatures; got len(signatures)") :=
  ⟨by rfl,
   (update_signatures_guards C0 txNoInputs [[1]]).1 (by rfl),
   by rfl,
   by simp [txOneUnsigned],
   (update_signatures_guards C0 txOneUnsigned []).2 (by rfl) (by simp [txOneUnsigned])⟩

/-! ## C4: `read_bytes` silently clamps -/

/-- C4: `_BCDataStream.read_bytes` never raises on a stream with a
buffer — in particular, a read past the end of the buffer silently
returns the bytes that remain (here 2 bytes for a 5-byte read) instead
of the documented `SerializationError`, because the Python slice
`input[cursor:cursor+length]` clamps and the `except IndexError` arm is
unreachable. -/
theorem read_bytes_silent_short_read :
    BCDataStream.read_bytes ⟨some [1, 2], 0⟩ 5 =
      .ok ([1, 2], ⟨some [1, 2], 5⟩) ∧
    (∀ (buf : Bytes) (cur n : Nat) (e : PyErr),
      BCDataStream.read_bytes ⟨some buf, cur⟩ n ≠ .error e) := by
  constructor
  · rfl
  · intro buf cur n e
    simp [BCDataStream.read_bytes]

/-! ## C8: the description-length gate -/

/-- C8: constructing an `Output` with a description whose JSON-encoded
form is strictly longer than 100 characters raises
`Bip270Exception("Output description too long")`, while one whose
encoded form is exactly 100 characters is accepted. -/
theorem output_description_length_gate (script : Bytes) (amount : Option Int)
    (d : PyStr) :
    (jsonStrLen d > 100 →
      mkOutputP script amount (some d) =
        .error (.bip270 "Output description too long")) ∧
    (jsonStrLen d = 100 →
      mkOutputP script amount (some d) = .ok ⟨script, amount, some d⟩) := by
  constructor
  · intro h
    simp [mkOutputP, h]
  · intro h
    simp [mkOutputP, h]

theorem output_description_length_gate_witness :
    jsonStrLen (List.replicate 99 97) = 101 ∧
      mkOutputP [] none (some (List.replicate 99 97)) =
        .error (.bip270 "Output description too long") ∧
      jsonStrLen (List.replicate 98 97) = 100 ∧
      mkOutputP [] none (some (List.replicate 98 97)) =
        .ok ⟨[], none, some (List.replicate 98 97)⟩ :=
  ⟨by decide,
   (output_description_length_gate [] none (List.replicate 99 97)).1 (by decide),
   by decide,
   (output_description_length_gate [] none (List.replicate 98 97)).2 (by decide)⟩

/-! ## C9: the Ledger plugin's positional signature parse -/

/-- C9: on a blob laid out as `[b0, b1, b2, rLen] ++ r ++ [x, sLen] ++ s`
with `r`/`s` of their declared lengths, the parse strips one leading byte
from `r` exactly when its declared length byte is 33 (and likewise for
`s`) and prepends the header byte `27 + 4 + (b0 & 1)`; for a standard
32/32-byte signature the result is the 65-byte
`header :: r ++ s`. -/
theorem ledger_sign_message_parse (b0 b1 b2 x rLen sLen : Nat) (r s : Bytes)
    (hr : r.length = rLen) (hs : s.length = sLen) :
    parseLedgerSig ([b0, b1, b2, rLen] ++ r ++ [x, sLen] ++ s) =
      .ok ((27 + 4 + b0 % 2) ::
        ((if rLen = 33 then r.drop 1 else r) ++
         (if sLen = 33 then s.drop 1 else s))) ∧
    (rLen = 32 → sLen = 32 →
      parseLedgerSig ([b0, b1, b2, rLen] ++ r ++ [x, sLen] ++ s) =
        .ok ((27 + 4 + b0 % 2) :: (r ++ s)) ∧
      ((27 + 4 + b0 % 2) :: (r ++ s)).length = 65) := by
  have hcons : [b0, b1, b2, rLen] ++ r ++ [x, sLen] ++ s =
      b0 :: b1 :: b2 :: rLen :: (r ++ x :: sLen :: s) := by
    simp
  have hmain : parseLedgerSig ([b0, b1, b2, rLen] ++ r ++ [x, sLen] ++ s) =
      .ok ((27 + 4 + b0 % 2) ::
        ((if rLen = 33 then r.drop 1 else r) ++
         (if sLen = 33 then s.drop 1 else s))) := by
    have h3 : pyIndex ([b0, b1, b2, rLen] ++ r ++ [x, sLen] ++ s) 3 = .ok rLen := by
      rw [hcons]; rfl
    have hdrop4 : ([b0, b1, b2, rLen] ++ r ++ [x, sLen] ++ s).drop 4 =
        r ++ x :: sLen :: s := by
      rw [hcons]
      rfl
    have hr0 : (r ++ x :: sLen :: s).take rLen = r := by
      rw [← hr, List.take_left]
    have hsLen : pyIndex ([b0, b1, b2, rLen] ++ r ++ [x, sLen] ++ s)
        (4 + rLen + 1) = .ok sLen := by
      have hassoc : [b0, b1, b2, rLen] ++ r ++ [x, sLen] ++ s =
          ([b0, b1, b2, rLen] ++ r) ++ (x :: sLen :: s) := by
        simp
      have hlenpre : ([b0, b1, b2, rLen] ++ r).length = 4 + rLen := by
        simp [hr]; omega
      rw [pyIndex, hassoc, List.get?_eq_getElem?,
        List.getElem?_append_right (by omega : ([b0, b1, b2, rLen] ++ r).length ≤ 4 + rLen + 1)]
      rw [hlenpre]
      have h1 : 4 + rLen + 1 - (4 + rLen) = 1 := by omega
      rw [h1]
      simp
    have hs0 : ([b0, b1, b2, rLen] ++ r ++ [x, sLen] ++ s).drop (4 + rLen + 2) = s := by
      have hlenpre : ([b0, b1, b2, rLen] ++ r ++ [x, sLen]).length = 4 + rLen + 2 := by
        simp [hr]; omega
      rw [← hlenpre, List.drop_left]
    have h0 : pyIndex ([b0, b1, b2, rLen] ++ r ++ [x, sLen] ++ s) 0 = .ok b0 := by
      rw [hcons]; rfl
    simp only [parseLedgerSig, h3, hsLen, h0, hdrop4, hr0, hs0, exceptBind_ok]
  refine ⟨hmain, ?_⟩
  intro h32r h32s
  subst h32r h32s
  rw [hmain, if_neg (by omega), if_neg (by omega)]
  refine ⟨rfl, ?_⟩
  simp [hr, hs]

theorem ledger_sign_message_parse_witness :
    parseLedgerSig ([48, 68, 2, 32] ++ List.replicate 32 7 ++ [2, 32] ++
        List.replicate 32 9) =
      .ok (31 :: (List.replicate 32 7 ++ List.replicate 32 9)) ∧
    (31 :: ((List.replicate 32 7 : Bytes) ++ List.replicate 32 9)).length = 65 :=
  ⟨by
    have h := (ledger_sign_message_parse 48 68 2 2 32 32 (List.replicate 32 7)
      (List.replicate 32 9) (by simp) (by simp)).2 rfl rfl
    exact h.1,
   by
    have h := (ledger_sign_message_parse 48 68 2 2 32 32 (List.replicate 32 7)
      (List.replicate 32 9) (by simp) (by simp)).2 rfl rfl
    exact h.2⟩

/-! ## C7: the `Output` dict round trip -/

theorem hexDigitVal_hexDigit (d : Nat) (h : d < 16) :
    hexDigitVal (hexDigit d) = some d := by
  unfold hexDigit hexDigitVal
  by_cases hd : d < 10
  · rw [if_pos hd, if_pos (by omega)]
    congr 1
    omega
  · rw [if_neg hd, if_neg (by omega), if_pos (by omega)]
    congr 1
    omega

theorem hexDecode_hexEncode (bs : Bytes) (h : ∀ b ∈ bs, b < 256) :
    hexDecode (hexEncode bs) = .ok bs := by
  induction bs with
  | nil => rfl
  | cons b t ih =>
      have hb : b < 256 := h b (by simp)
      have ht : ∀ y ∈ t, y < 256 := fun y hy => h y (by simp [hy])
      have h1 : hexDigitVal (hexDigit (b / 16)) = some (b / 16) :=
        hexDigitVal_hexDigit _ (by omega)
      have h2 : hexDigitVal (hexDigit (b % 16)) = some (b % 16) :=
        hexDigitVal_hexDigit _ (by omega)
      have henc : hexEncode (b :: t) =
          hexDigit (b / 16) :: hexDigit (b % 16) :: hexEncode t := by
        simp [hexEncode]
      rw [henc]
      simp only [hexDecode, h1, h2, ih ht]
      have hbb : 16 * (b / 16) + b % 16 = b := by omega
      rw [hbb]

/-- The Python truthiness filter `to_dict` applies to the amount. -/
def truthyAmount : Option Int → Option Int
  | some a => if a ≠ 0 then some a else none
  | none => none

/-- The Python truthiness filter `to_dict` applies to the description. -/
def truthyDesc : Option PyStr → Option PyStr
  | some d => if d ≠ [] then some d else none
  | none => none

/-- C7 (amended): `Output.from_dict(output.to_dict())` reproduces the
script always, but reproduces the amount only when it is `None` or a
non-zero integer and the description only when it is `None` or
non-empty: `to_dict` emits these fields only when *truthy*, so the
integer amount 0 (and an empty description) come back as `None`. -/
theorem output_dict_round_trip (o : OutputP)
    (hscript : ∀ b ∈ o.script, b < 256)
    (hdesc : ∀ d, o.description = some d → jsonStrLen d ≤ 100) :
    OutputP.fromDict (OutputP.toDict o) =
      .ok ⟨o.script, truthyAmount o.amount, truthyDesc o.description⟩ := by
  rcases o with ⟨script, amount, description⟩
  simp only at hscript hdesc
  have hscr := hexDecode_hexEncode script hscript
  rcases amount with _ | a <;> rcases description with _ | d
  · simp [OutputP.toDict, OutputP.fromDict, jlookup, List.find?, strScript,
      strAmount, strDescription, hscr, mkOutputP, truthyAmount, truthyDesc]
  · have hlen : jsonStrLen d ≤ 100 := hdesc d rfl
    by_cases hd : d = []
    · subst hd
      simp [OutputP.toDict, OutputP.fromDict, jlookup, List.find?, strScript,
        strAmount, strDescription, hscr, mkOutputP, truthyAmount, truthyDesc]
    · simp [OutputP.toDict, OutputP.fromDict, jlookup, List.find?, strScript,
        strAmount, strDescription, hscr, mkOutputP, truthyAmount, truthyDesc,
        hd, Nat.not_lt.mpr hlen]
  · by_cases ha : a = 0
    · subst ha
      simp [OutputP.toDict, OutputP.fromDict, jlookup, List.find?, strScript,
        strAmount, strDescription, hscr, mkOutputP, truthyAmount, truthyDesc]
    · simp [OutputP.toDict, OutputP.fromDict, jlookup, List.find?, strScript,
        strAmount, strDescription, hscr, mkOutputP, truthyAmount, truthyDesc, ha]
  · have hlen : jsonStrLen d ≤ 100 := hdesc d rfl
    have hlen' : ¬(jsonStrLen d > 100) := by omega
    by_cases ha : a = 0
    · by_cases hd : d = []
      · subst ha
        subst hd
        simp [OutputP.toDict, OutputP.fromDict, jlookup, List.find?, strScript,
          strAmount, strDescription, hscr, mkOutputP, truthyAmount, truthyDesc]
      · subst ha
        simp [OutputP.toDict, OutputP.fromDict, jlookup, List.find?, strScript,
          strAmount, strDescription, hscr, mkOutputP, truthyAmount, truthyDesc,
          hd, hlen']
    · by_cases hd : d = []
      · subst hd
        simp [OutputP.toDict, OutputP.fromDict, jlookup, List.find?, strScript,
          strAmount, strDescription, hscr, mkOutputP, truthyAmount, truthyDesc, ha]
      · simp [OutputP.toDict, OutputP.fromDict, jlookup, List.find?, strScript,
          strAmount, strDescription, hscr, mkOutputP, truthyAmount, truthyDesc,
          ha, hd, hlen']

/-- An `Output` whose amount is the integer 0. -/
def outAmountZero : OutputP := ⟨[171], some 0, none⟩

/-- C7 counterexample: the round trip loses the integer amount 0 — the
result's amount is `None`, not 0 — because `to_dict` drops a falsy
amount. -/
theorem output_round_trip_drops_zero_amount :
    OutputP.fromDict (OutputP.toDict outAmountZero) = .ok ⟨[171], none, none⟩ ∧
      (none : Option Int) ≠ outAmountZero.amount := by
  exact ⟨rfl, by decide⟩

theorem output_dict_round_trip_witness :
    OutputP.fromDict (OutputP.toDict ⟨[171], some 5, some [104, 105]⟩) =
      .ok ⟨[171], some 5, some [104, 105]⟩ := by
  have h := output_dict_round_trip ⟨[171], some 5, some [104, 105]⟩
    (by decide) (by intro d hd; cases hd; decide)
  simpa [truthyAmount, truthyDesc] using h

/-! ## C6: `PaymentRequest.from_json` rejections -/

/-- C6: `from_json` rejects — each with a distinguishable
`Bip270Exception` — any document longer than the 10,000,000 ceiling, any
parsed document whose `network` field is not the literal string
`"bitcoin"`, and any whose `outputs` field is missing or not a list; in
every such case it raises rather than returning a request. -/
theorem payment_request_from_json_rejections (doc : PyJsonDoc) :
    (doc.length > 10000000 →
      PaymentRequest.fromJson doc =
        .error (.bip270 "Invalid payment request, too large")) ∧
    (∀ kvs, doc.length ≤ 10000000 → doc.loads = .ok (.jobj kvs) →
      (jlookup kvs strNetwork ≠ some (.jstr strBitcoin) →
        PaymentRequest.fromJson doc = .error (.bip270 "Invalid json network")) ∧
      (jlookup kvs strNetwork = some (.jstr strBitcoin) →
        (jlookup kvs strOutputs = none →
          PaymentRequest.fromJson doc =
            .error (.bip270 "Missing required json 'outputs' field")) ∧
        (∀ v, jlookup kvs strOutputs = some v → (∀ xs, v ≠ .jarr xs) →
          PaymentRequest.fromJson doc =
            .error (.bip270 "Invalid json 'outputs' field")))) := by
  constructor
  · intro h
    simp [PaymentRequest.fromJson, h]
  · intro kvs hlen hloads
    have hnotbig : ¬ doc.length > 10000000 := by omega
    constructor
    · intro hne
      simp only [PaymentRequest.fromJson, if_neg hnotbig, hloads]
      cases hv : jlookup kvs strNetwork with
      | none => simp [hv]
      | some v =>
          cases v with
          | jstr s =>
              have hs : s ≠ strBitcoin := by
                intro h
                exact hne (by rw [hv, h])
              simp only [hv]
              rw [if_pos hs]
          | jnull => simp [hv]
          | jbool b => simp [hv]
          | jint n => simp [hv]
          | jarr xs => simp [hv]
          | jobj kvs2 => simp [hv]
    · intro hv
      have hbit : ¬ (strBitcoin ≠ strBitcoin) := by simp
      constructor
      · intro hout
        simp only [PaymentRequest.fromJson, if_neg hnotbig, hloads, hv]
        rw [if_neg hbit]
        simp [hout]
      · intro v hvout hnotarr
        simp only [PaymentRequest.fromJson, if_neg hnotbig, hloads, hv]
        rw [if_neg hbit]
        cases v with
        | jarr xs => exact absurd rfl (hnotarr xs)
        | jnull => simp [hvout]
        | jbool b => simp [hvout]
        | jint n => simp [hvout]
        | jstr s => simp [hvout]
        | jobj kvs2 => simp [hvout]

theorem payment_request_from_json_rejections_witness :
    PaymentRequest.fromJson ⟨10000001, .ok .jnull⟩ =
      .error (.bip270 "Invalid payment request, too large") ∧
    PaymentRequest.fromJson ⟨10, .ok (.jobj [(strNetwork, .jstr [116])])⟩ =
      .error (.bip270 "Invalid json network") ∧
    PaymentRequest.fromJson ⟨10, .ok (.jobj [(strNetwork, .jstr strBitcoin)])⟩ =
      .error (.bip270 "Missing required json 'outputs' field") ∧
    PaymentRequest.fromJson
        ⟨10, .ok (.jobj [(strNetwork, .jstr strBitcoin), (strOutputs, .jint 3)])⟩ =
      .error (.bip270 "Invalid json 'outputs' field") := by
  refine ⟨?_, ?_, ?_, ?_⟩
  · exact (payment_request_from_json_rejections ⟨10000001, .ok .jnull⟩).1
      (by decide)
  · exact (((payment_request_from_json_rejections
        ⟨10, .ok (.jobj [(strNetwork, .jstr [116])])⟩).2
      [(strNetwork, .jstr [116])] (by decide) rfl).1
      (by intro h; simp [jlookup, List.find?, strNetwork, strBitcoin] at h))
  · exact ((((payment_request_from_json_rejections
        ⟨10, .ok (.jobj [(strNetwork, .jstr strBitcoin)])⟩).2
      [(strNetwork, .jstr strBitcoin)] (by decide) rfl).2 rfl).1 rfl)
  · exact ((((payment_request_from_json_rejections
        ⟨10, .ok (.jobj [(strNetwork, .jstr strBitcoin), (strOutputs, .jint 3)])⟩).2
      [(strNetwork, .jstr strBitcoin), (strOutputs, .jint 3)] (by decide) rfl).2
        rfl).2 (.jint 3) rfl (by intro xs h; cases h))

/-! ## C2: `InvoiceStore` persistence -/

/-- C2 (code bug): no `InvoiceStore` mutator ever rewrites the backing
wallet-data mapping.  `set_paid` completes without touching it (it never
calls `save`), and `save` itself — hence `add` and `remove`, which call
it — always raises `AttributeError`, because it assigns through
`self.wallet_data` while `__init__` stores the mapping in
`self._wallet_data`. -/
theorem invoice_store_persistence_bug :
    (∀ (C : ExtCrypto) (s : InvoiceStore) (pr : PRState) (txid : PyStr)
        (out : InvoiceStore × PRState),
        InvoiceStore.set_paid C s pr txid = .ok out →
        out.1._walletData = s._walletData ∧ out.1.invoices = s.invoices) ∧
    (∀ s : InvoiceStore, s.save = .error (.attributeError "wallet_data")) ∧
    (∀ (C : ExtCrypto) (s : InvoiceStore) (pr : PRState)
        (out : InvoiceStore × PyStr), InvoiceStore.add C s pr ≠ .ok out) ∧
    (∀ (s : InvoiceStore) (key : PyStr) (out : InvoiceStore),
        InvoiceStore.remove s key ≠ .ok out) := by
  refine ⟨?_, fun _ => rfl, ?_, ?_⟩
  · intro C s pr txid out h
    rw [InvoiceStore.set_paid] at h
    cases hid : PRState.getId C { pr with tx := some txid } with
    | error e => rw [hid] at h; cases h
    | ok key =>
        rw [hid] at h
        cases h
        exact ⟨rfl, rfl⟩
  · intro C s pr out h
    rw [InvoiceStore.add] at h
    cases hid : PRState.getId C pr with
    | error e => rw [hid] at h; cases h
    | ok key => rw [hid] at h; cases h
  · intro s key out h
    rw [InvoiceStore.remove] at h
    by_cases hf : (s.invoices.find? (fun kv => kv.1 = key)).isSome
    · rw [if_pos hf] at h; cases h
    · rw [if_neg hf] at h; cases h

def invStore0 : InvoiceStore := ⟨[([107], .jnull)], [], []⟩

def prPaid0 : PRState := ⟨[48], some [114], none, []⟩

theorem invoice_store_persistence_bug_witness :
    InvoiceStore.set_paid C0 invStore0 prPaid0 [116] =
      .ok (⟨[([107], .jnull)], [], [([116], [48])]⟩,
           ⟨[48], some [114], some [116], []⟩) ∧
    (⟨[([107], .jnull)], [], [([116], [48])]⟩ : InvoiceStore)._walletData =
      invStore0._walletData ∧
    invStore0.save = .error (.attributeError "wallet_data") ∧
    InvoiceStore.add C0 invStore0 prPaid0 ≠
      .ok (invStore0, [48]) := by
  refine ⟨rfl, ?_, ?_, ?_⟩
  · exact (invoice_store_persistence_bug.1 C0 invStore0 prPaid0 [116]
      (⟨[([107], .jnull)], [], [([116], [48])]⟩,
       ⟨[48], some [114], some [116], []⟩) rfl).1
  · exact invoice_store_persistence_bug.2.1 invStore0
  · exact invoice_store_persistence_bug.2.2.1 C0 invStore0 prPaid0
      (invStore0, [48])

/-! ## C5: signature installation and idempotence -/

theorem list_set_get_self {α : Type} (l : List α) (i : Nat) (a : α)
    (h : l.get? i = some a) : l.set i a = l := by
  induction l generalizing i with
  | nil => cases h
  | cons hd tl ih =>
      cases i with
      | zero =>
          simp only [List.get?] at h
          cases h
          rfl
      | succ k =>
          simp only [List.get?] at h
          simp [List.set, ih k h]

/-- `updateSignaturesLoop` only rewrites the input list, and preserves
its length. -/
theorem updateSignaturesLoop_shape (C : ExtCrypto) (ss : List Bytes) :
    ∀ (t : Transaction) (i : Nat) (t' : Transaction),
      updateSignaturesLoop C t i ss = .ok t' →
      ∃ ins, t' = { t with txInputs := ins } ∧
        ins.length = t.txInputs.length := by
  induction ss with
  | nil =>
      intro t i t' h
      rw [updateSignaturesLoop] at h
      cases h
      exact ⟨t.txInputs, rfl, rfl⟩
  | cons s rest ih =>
      intro t i t' h
      rw [updateSignaturesLoop] at h
      cases hg : t.txInputs.get? i with
      | none =>
          simp only [hg] at h
          cases h
          exact ⟨t.txInputs, rfl, rfl⟩
      | some txin =>
          simp only [hg] at h
          cases hu : updateOneSig C t txin s with
          | error e => simp only [hu] at h; cases h
          | ok txin' =>
              simp only [hu] at h
              obtain ⟨ins, hshape, hlen⟩ := ih _ _ _ h
              refine ⟨ins, ?_, ?_⟩
              · rw [hshape]
              · rw [hlen]; simp

/-- When the full signature for every remaining slot is already present,
the loop is the identity (the membership skip in `update_signatures`). -/
theorem updateSignaturesLoop_skip (C : ExtCrypto) (ss : List Bytes) :
    ∀ (t : Transaction) (i : Nat),
      (∀ k txin₁ s₁, t.txInputs.get? (i + k) = some txin₁ →
        ss.get? k = some s₁ → (s₁ ++ [nHashType]) ∈ txin₁.signatures) →
      updateSignaturesLoop C t i ss = .ok t := by
  induction ss with
  | nil => intro t i _; rw [updateSignaturesLoop]
  | cons s rest ih =>
      intro t i hall
      rw [updateSignaturesLoop]
      cases hg : t.txInputs.get? i with
      | none => rfl
      | some txin =>
          have hmem : (s ++ [nHashType]) ∈ txin.signatures :=
            hall 0 txin s (by simpa using hg) rfl
          have hone : updateOneSig C t txin s = .ok txin := by
            rw [updateOneSig]
            simp only [if_pos hmem]
          have hset : t.txInputs.set i txin = t.txInputs :=
            list_set_get_self _ _ _ hg
          simp only [hone, hset]
          exact ih t (i + 1) (fun k txin₁ s₁ hgk hsk =>
            hall (k + 1) txin₁ s₁ (by rw [show i + (k + 1) = i + 1 + k by omega]; exact hgk) hsk)

/-- `serialize` does not read the raw cache. -/
theorem serialize_raw_irrelevant (C : ExtCrypto) (t : Transaction)
    (r : Option Bytes) :
    Transaction.serialize C { t with raw := r } = t.serialize C := by
  cases t
  rfl

/-- C5: (install) when the full signature is not yet present, the DER
conversion succeeds and the recovery loop matches candidate slot `j`,
`update_signatures`' per-input body installs exactly
`signature ++ [0x41]` at slot `j` (`nHashType = 0x41 = 65`); and
(idempotence) a second `update_signatures` call with the same signature
list returns the transaction unchanged once every input's slot holds its
full signature. -/
theorem update_signatures_install_and_idempotent :
    (∀ (C : ExtCrypto) (tx : Transaction) (txin : XTxInput) (sig ph base : Bytes)
        (j : Nat),
        (sig ++ [nHashType]) ∉ txin.signatures →
        preimageHash C tx txin = .ok ph →
        C.derToCompact sig = some base →
        tryRecids C (txin.x_pubkeys.map (XPublicKey.toPKA C)) base ph [0, 1, 2, 3] =
          some j →
        updateOneSig C tx txin sig =
          .ok { txin with signatures := txin.signatures.set j (sig ++ [nHashType]) } ∧
        nHashType = 65) ∧
    (∀ (C : ExtCrypto) (tx : Transaction) (sigs : List Bytes) (tx' : Transaction),
        tx.update_signatures C sigs = .ok tx' →
        (∀ i txin₁ s₁, tx'.txInputs.get? i = some txin₁ →
          sigs.get? i = some s₁ → (s₁ ++ [nHashType]) ∈ txin₁.signatures) →
        tx'.update_signatures C sigs = .ok tx') := by
  constructor
  · intro C tx txin sig ph base j hnotin hpre hder htry
    refine ⟨?_, rfl⟩
    rw [updateOneSig]
    simp only [if_neg hnotin, hpre, hder, htry]
  · intro C tx sigs tx' hrun hall
    rw [Transaction.update_signatures] at hrun
    by_cases hcomp : tx.is_complete
    · simp only [if_pos hcomp] at hrun
      cases hrun
      rw [Transaction.update_signatures, if_pos hcomp]
    · simp only [if_neg hcomp] at hrun
      by_cases hlen : tx.txInputs.length ≠ sigs.length
      · simp only [if_pos hlen] at hrun
        cases hrun
      · simp only [if_neg hlen] at hrun
        push_neg at hlen
        cases hloop : updateSignaturesLoop C tx 0 sigs with
        | error e => simp only [hloop] at hrun; cases hrun
        | ok txL =>
            simp only [hloop] at hrun
            cases hser : txL.serialize C with
            | error e => simp only [hser] at hrun; cases hrun
            | ok raw =>
                simp only [hser] at hrun
                cases hrun
                obtain ⟨ins, hshape, hinslen⟩ :=
                  updateSignaturesLoop_shape C sigs tx 0 txL hloop
                rw [Transaction.update_signatures]
                by_cases hcomp2 : Transaction.is_complete { txL with raw := some raw }
                · rw [if_pos hcomp2]
                · rw [if_neg hcomp2]
                  have hlen2 : ({ txL with raw := some raw } : Transaction).txInputs.length
                      = sigs.length := by
                    show txL.txInputs.length = sigs.length
                    rw [hshape]
                    simpa using hinslen.trans hlen
                  rw [if_neg (by omega)]
                  have hskip : updateSignaturesLoop C { txL with raw := some raw } 0 sigs
                      = .ok { txL with raw := some raw } := by
                    apply updateSignaturesLoop_skip
                    intro k txin₁ s₁ hgk hsk
                    exact hall k txin₁ s₁ (by simpa using hgk) hsk
                  simp only [hskip, serialize_raw_irrelevant, hser]

/-- A valid compressed-key raw for witnesses. -/
def kw : Bytes := 2 :: List.replicate 32 7

/-- A crypto instance whose recovery always returns `kw` (so the
recovery loop matches the sole candidate at its first id). -/
def Cw : ExtCrypto := { C0 with recoverPub := fun _ _ => some kw }

/-- An unsigned p2pkh input holding `kw` as its only candidate. -/
def txinW : XTxInput :=
  ⟨List.replicate 32 1, 0, [], 0, 0, [⟨kw⟩],
   some (.p2pkh (List.replicate 20 9)), 1, [NO_SIGNATURE]⟩

/-- A one-input transaction around `txinW`. -/
def txW : Transaction := ⟨1, [txinW], [], 0, none⟩

theorem update_signatures_install_and_idempotent_witness :
    updateOneSig Cw txW txinW [9] =
      .ok { txinW with signatures := [[9, 65]] } ∧
    ((txW.update_signatures Cw [[9]]).bind
        (fun tx2 => tx2.update_signatures Cw [[9]])) =
      txW.update_signatures Cw [[9]] := by
  constructor
  · exact (update_signatures_install_and_idempotent.1 Cw txW txinW [9] [] [9] 0
      (by decide) rfl rfl rfl).1
  · have hinp : (txW.update_signatures Cw [[9]]).map Transaction.txInputs =
        .ok [{ txinW with signatures := [[9, 65]] }] := by rfl
    cases hrun : txW.update_signatures Cw [[9]] with
    | error e => rfl
    | ok tx2 =>
        have htxIn : tx2.txInputs = [{ txinW with signatures := [[9, 65]] }] := by
          rw [hrun] at hinp
          simpa [Except.map] using hinp
        have hidem := update_signatures_install_and_idempotent.2 Cw txW [[9]] tx2 hrun ?_
        · simp only [hrun, Except.bind]
          exact hidem
        · intro i txin₁ s₁ hg hs
          rw [htxIn] at hg
          cases i with
          | zero =>
              simp only [List.get?] at hg hs
              cases hg
              cases hs
              decide
          | succ k =>
              simp at hg

/-! ## C3: the serialize/deserialize round trip

The provable fragment: transactions whose inputs are canonical-form
single-key p2pkh inputs.  The lemmas below walk the byte stream through
one serialized input and its re-classification. -/

instance : Inhabited XPublicKey := ⟨⟨[]⟩⟩

/-- The canonical unlocking script of a single-key p2pkh input:
its (only) signature slot pushed, then its (only) candidate key. -/
def canonScript (txin : XTxInput) : Bytes :=
  pushItem txin.signatures.headI ++ pushItem (txin.x_pubkeys.headI).raw

/-- A single byte that `push_item` renders as one special opcode
(`OP_1`..`OP_16` or `OP_1NEGATE`) rather than as a data push. -/
def specialSingle (s : Bytes) : Prop :=
  s.length = 1 ∧ (1 ≤ s.headI ∧ s.headI ≤ 16 ∨ s.headI = 129)

instance (s : Bytes) : Decidable (specialSingle s) := by
  unfold specialSingle
  infer_instance

theorem pushItem_special (s : Bytes) (h : specialSingle s) :
    ∃ op, pushItem s = [op] ∧ 78 < op := by
  obtain ⟨h1, h2⟩ := h
  cases s with
  | nil => simp at h1
  | cons v t =>
      cases t with
      | cons _ _ => simp at h1
      | nil =>
          simp only [List.headI] at h2
          rw [pushItem]
          rcases h2 with ⟨hlo, hhi⟩ | h129
          · refine ⟨80 + v, ?_, by omega⟩
            rw [if_neg (by simp), if_pos (by simp)]
            simp only [List.headI]
            rw [if_pos ⟨hlo, hhi⟩]
          · subst h129
            refine ⟨79, ?_, by omega⟩
            rw [if_neg (by simp), if_pos (by simp)]
            simp only [List.headI]
            rw [if_neg (by omega)]
            simp

theorem pushItem_normal (s : Bytes) (h1 : 1 ≤ s.length) (h75 : s.length ≤ 75)
    (hns : ¬ specialSingle s) : pushItem s = s.length :: s := by
  rw [pushItem]
  rw [if_neg (by omega)]
  by_cases hone : s.length = 1
  · rw [if_pos hone]
    have hns2 : ¬ (1 ≤ s.headI ∧ s.headI ≤ 16 ∨ s.headI = 129) := by
      intro hc
      exact hns ⟨hone, hc⟩
    rw [if_neg (by intro hc; exact hns2 (Or.inl hc)),
        if_neg (by intro hc; exact hns2 (Or.inr hc))]
    cases s with
    | nil => simp at hone
    | cons v t =>
        cases t with
        | nil => rfl
        | cons _ _ => simp at hone
  · rw [if_neg hone, if_pos (by omega)]

theorem pushItem_33 (k : Bytes) (h : k.length = 33) : pushItem k = 33 :: k := by
  rw [pushItem, if_neg (by omega), if_neg (by omega), if_pos (by omega), h]

theorem pushScriptB_33 (k : Bytes) (h : k.length = 33) :
    pushScriptB k = 33 :: k := by
  rw [pushScriptB, h, opPush, if_pos (by omega)]
  rfl

theorem intLE_coe_nat (w n : Nat) (h : n < 2 ^ (8 * w)) :
    intLE w (n : Int) = leEnc w n := by
  rw [intLE]
  have hc : (((2 : Nat) ^ (8 * w) : Nat) : Int) = (2 : Int) ^ (8 * w) := by
    push_cast; rfl
  have hmod : ((n : Int)) % ((2 : Int) ^ (8 * w)) = (n : Int) :=
    Int.emod_eq_of_lt (by positivity) (by omega)
  rw [hmod]
  simp

theorem toPKA_compressed (C : ExtCrypto) (k : Bytes) (hlen : k.length = 33)
    (hhd : k.headI = 2 ∨ k.headI = 3) (hcv : C.onCurve k = true) :
    XPublicKey.toPKA C ⟨k⟩ = .pk k := by
  cases k with
  | nil => simp at hlen
  | cons a t =>
      simp only [List.headI] at hhd
      rw [XPublicKey.toPKA]
      simp only [List.head?_cons]
      rw [if_pos hhd, if_pos ⟨hlen, hcv⟩]

theorem mkXPublicKey_compressed (C : ExtCrypto) (k : Bytes) (hlen : k.length = 33)
    (hhd : k.headI = 2 ∨ k.headI = 3) (hcv : C.onCurve k = true) :
    mkXPublicKey C k = .ok ⟨k⟩ := by
  rw [mkXPublicKey, if_pos]
  rw [xpkValid, toPKA_compressed C k hlen hhd hcv]
  simp

theorem realizeXpk_compressed (C : ExtCrypto) (k : Bytes) (hlen : k.length = 33)
    (hhd : k.headI = 2 ∨ k.headI = 3) (hcv : C.onCurve k = true) :
    realizeXpk C ⟨k⟩ = .ok ⟨k⟩ := by
  rw [realizeXpk, toPKA_compressed C k hlen hhd hcv]
  exact mkXPublicKey_compressed C k hlen hhd hcv

theorem exceptMapM_ok_of_forall {α β : Type} (f : α → Except PyErr β)
    (g : α → β) (l : List α) (h : ∀ a ∈ l, f a = .ok (g a)) :
    exceptMapM f l = .ok (l.map g) := by
  induction l with
  | nil => rfl
  | cons a t ih =>
      rw [exceptMapM, h a (by simp), ih (fun x hx => h x (by simp [hx]))]
      rfl

theorem scriptGetOp_canon_normal (s k : Bytes) (h1 : 1 ≤ s.length)
    (h75 : s.length ≤ 75) (hns : ¬ specialSingle s) (hk : k.length = 33) :
    scriptGetOp (pushItem s ++ pushItem k) =
      [(s.length, some s), (33, some k)] := by
  rw [pushItem_normal s h1 h75 hns, pushItem_33 k hk]
  have hl : (s.length :: s) ++ (33 :: k) = s.length :: (s ++ (33 :: k)) := rfl
  rw [hl, scriptGetOp_push s.length h1 h75 s (33 :: k) rfl]
  have hk2 : (33 : Nat) :: k = 33 :: (k ++ []) := by simp
  rw [hk2, scriptGetOp_push 33 (by omega) (by omega) k [] hk, scriptGetOp_nil]

theorem scriptGetOp_canon_special (s k : Bytes) (hsp : specialSingle s)
    (hk : k.length = 33) :
    ∃ op, 78 < op ∧
      scriptGetOp (pushItem s ++ pushItem k) = [(op, none), (33, some k)] := by
  obtain ⟨op, hpe, hop⟩ := pushItem_special s hsp
  refine ⟨op, hop, ?_⟩
  rw [hpe, pushItem_33 k hk]
  have hl : ([op] ++ (33 :: k)) = op :: (33 :: k) := rfl
  rw [hl, scriptGetOp]
  rw [if_neg (by omega)]
  have hk2 : (33 : Nat) :: k = 33 :: (k ++ []) := by simp
  rw [hk2, scriptGetOp_push 33 (by omega) (by omega) k [] hk, scriptGetOp_nil]

/-- Classification of the canonical p2pkh unlocking script: a data push
of the signature slot followed by the pushed key matches the
signature-plus-key shape and yields the key, its address, threshold 1
and the one signature. -/
theorem parseScriptSig_p2pkh (C : ExtCrypto) (s k : Bytes) (h1 : 1 ≤ s.length)
    (h75 : s.length ≤ 75) (hns : ¬ specialSingle s) (hk : k.length = 33)
    (hhd : k.headI = 2 ∨ k.headI = 3) (hcv : C.onCurve k = true) :
    parseScriptSig C (pushItem s ++ pushItem k) =
      .ok ⟨[⟨k⟩], XPublicKey.toAddress C ⟨k⟩, 1, [s]⟩ := by
  have hdec := scriptGetOp_canon_normal s k h1 h75 hns hk
  have hm1 : matchDecoded [(s.length, some s), (33, some k)] [78] = false := by
    simp [matchDecoded]
  have hm2 : matchDecoded [(s.length, some s), (33, some k)] [78, 78] = true := by
    have hA : s.length ≤ 78 := by omega
    have hB : 0 < s.length := h1
    simp [matchDecoded, hA, hB]
  rw [parseScriptSig]
  simp only [hdec, hm1, hm2, Bool.false_eq_true, if_false, if_true]
  simp only [List.headI, List.getD, Option.getD_some, List.get?]
  rw [mkXPublicKeyOfPush]
  rw [mkXPublicKey_compressed C k hk hhd hcv]
  rfl

/-- A special single-byte signature slot renders as a non-push opcode,
so the script matches none of the three shapes and the classification
fields stay unset. -/
theorem parseScriptSig_special (C : ExtCrypto) (s k : Bytes)
    (hsp : specialSingle s) (hk : k.length = 33) :
    parseScriptSig C (pushItem s ++ pushItem k) = .ok default := by
  obtain ⟨op, hop, hdec⟩ := scriptGetOp_canon_special s k hsp hk
  have hm1 : matchDecoded [(op, none), (33, some k)] [78] = false := by
    simp [matchDecoded]
  have hm2 : matchDecoded [(op, none), (33, some k)] [78, 78] = false := by
    have hA : ¬(op ≤ 78) := Nat.not_le.mpr hop
    have hB : (78 : Nat) ≠ op := Nat.ne_of_lt hop
    simp [matchDecoded, hA, hB]
  have hm3 : matchDecoded [(op, none), (33, some k)]
      (0 :: List.replicate ([(op, none), (33, some k)].length - 1) 78) = false := by
    have hC : (0 : Nat) ≠ op := Nat.ne_of_lt (Nat.lt_trans (by norm_num) hop)
    simp [matchDecoded, hC]
  rw [parseScriptSig]
  simp only [hdec, hm1, hm2, hm3, Bool.false_eq_true, if_false, not_false_eq_true,
    if_true]

/-- A byte string of length at least two never renders as a special
single opcode. -/
theorem not_special_of_two_le (s : Bytes) (h2 : 2 ≤ s.length) :
    ¬ specialSingle s := by
  intro hs
  rcases hs with ⟨h1, _⟩
  omega

/-- For items of 2..75 bytes, `push_script`'s length prefix coincides
with `push_item`'s direct push. -/
theorem pushScriptB_eq_pushItem (k : Bytes) (h2 : 2 ≤ k.length)
    (h75 : k.length ≤ 75) : pushScriptB k = pushItem k := by
  rw [pushScriptB, opPush, if_pos (by omega), pushItem]
  rw [if_neg (by omega), if_neg (by omega), if_pos (by omega)]
  rfl

/-- `OP_0` decodes as a zero-length push pair. -/
theorem scriptGetOp_op0 (rest : Bytes) :
    scriptGetOp (0 :: rest) = (0, some []) :: scriptGetOp rest := by
  rw [scriptGetOp]
  rw [if_pos (by decide : (0 : Nat) ≤ 78)]
  have hps : pushSkipLen 0 rest = (0, 0) := by
    unfold pushSkipLen
    rw [if_neg (by decide : ¬((0 : Nat) = 76)),
        if_neg (by decide : ¬((0 : Nat) = 77)),
        if_neg (by decide : ¬((0 : Nat) = 78))]
  simp [hps]

/-- Any opcode above `OP_PUSHDATA4` decodes as a data-less pair. -/
theorem scriptGetOp_nonpush (op : Nat) (h : 78 < op) (rest : Bytes) :
    scriptGetOp (op :: rest) = (op, none) :: scriptGetOp rest := by
  rw [scriptGetOp]
  rw [if_neg (Nat.not_le.mpr h)]

/-- An `OP_PUSHDATA2` push of `n` bytes decodes to one push pair. -/
theorem scriptGetOp_pushdata2 (n : Nat) (hn : n < 65536) (data rest : Bytes)
    (hlen : data.length = n) :
    scriptGetOp (77 :: (leEnc 2 n ++ (data ++ rest)))
      = (77, some data) :: scriptGetOp rest := by
  rw [scriptGetOp]
  have hps : pushSkipLen 77 (leEnc 2 n ++ (data ++ rest)) = (2, n) := by
    unfold pushSkipLen
    have h2le : 2 ≤ (leEnc 2 n ++ (data ++ rest)).length := by simp
    rw [if_neg (by decide : ¬((77 : Nat) = 76)),
        if_pos (rfl : (77 : Nat) = 77), if_pos h2le]
    have ht : (leEnc 2 n ++ (data ++ rest)).take 2 = leEnc 2 n := by
      have h := List.take_left (leEnc 2 n) (data ++ rest)
      rwa [leEnc_length] at h
    rw [ht, leDec_leEnc, Nat.mod_eq_of_lt (by simpa using hn)]
  rw [if_pos (by decide : (77 : Nat) ≤ 78)]
  simp only [hps]
  have hd2 : (leEnc 2 n ++ (data ++ rest)).drop 2 = data ++ rest := by
    have h := List.drop_left (leEnc 2 n) (data ++ rest)
    rwa [leEnc_length] at h
  have hdn : (leEnc 2 n ++ (data ++ rest)).drop (2 + n) = rest := by
    have hre : leEnc 2 n ++ (data ++ rest) = (leEnc 2 n ++ data) ++ rest := by
      simp
    have hlen2 : (leEnc 2 n ++ data).length = 2 + n := by simp [hlen]
    rw [hre, ← hlen2, List.drop_left]
  rw [hd2, hdn, ← hlen, List.take_left]

/-- A `push_script`-prefixed item of up to 65535 bytes decodes as one
push pair, whichever prefix form the length selects. -/
theorem scriptGetOp_pushScriptB (x rest : Bytes) (h1 : 1 ≤ x.length)
    (h2 : x.length < 65536) :
    ∃ op, 0 < op ∧ op ≤ 78 ∧
      scriptGetOp (pushScriptB x ++ rest) = (op, some x) :: scriptGetOp rest := by
  rw [pushScriptB, opPush]
  by_cases ha : x.length < 76
  · rw [if_pos ha]
    have hc : (([x.length] ++ x) ++ rest) = x.length :: (x ++ rest) := by simp
    rw [hc, scriptGetOp_push x.length h1 (by omega) x rest rfl]
    exact ⟨x.length, h1, (by omega : x.length ≤ 78), rfl⟩
  · by_cases hb : x.length < 256
    · rw [if_neg ha, if_pos hb]
      have hc : (([76, x.length] ++ x) ++ rest)
          = 76 :: x.length :: (x ++ rest) := by simp
      rw [hc, scriptGetOp_pushdata1 x.length x rest rfl]
      exact ⟨76, (by decide : (0 : Nat) < 76), (by decide : (76 : Nat) ≤ 78), rfl⟩
    · rw [if_neg ha, if_neg hb, if_pos h2]
      have hc : (((77 :: leEnc 2 x.length) ++ x) ++ rest)
          = 77 :: (leEnc 2 x.length ++ (x ++ rest)) := by simp
      rw [hc, scriptGetOp_pushdata2 x.length h2 x rest rfl]
      exact ⟨77, (by decide : (0 : Nat) < 77), (by decide : (77 : Nat) ≤ 78), rfl⟩

/-- A run of normally pushed items decodes to its list of push pairs. -/
theorem scriptGetOp_pushList (ss : List Bytes)
    (h : ∀ s ∈ ss, 1 ≤ s.length ∧ s.length ≤ 75 ∧ ¬ specialSingle s)
    (rest : Bytes) :
    scriptGetOp ((ss.map pushItem).flatten ++ rest)
      = ss.map (fun s => (s.length, some s)) ++ scriptGetOp rest := by
  induction ss with
  | nil => simp
  | cons s ss ih =>
      obtain ⟨h1, h75, hns⟩ := h s (by simp)
      rw [List.map_cons, List.flatten_cons, pushItem_normal s h1 h75 hns,
          List.append_assoc]
      have hc : ((s.length :: s) ++ ((ss.map pushItem).flatten ++ rest))
          = s.length :: (s ++ ((ss.map pushItem).flatten ++ rest)) := rfl
      rw [hc, scriptGetOp_push s.length h1 h75 s _ rfl,
          ih (fun x hx => h x (by simp [hx]))]
      rfl

/-- A run of decoded push pairs consumes the corresponding run of
`OP_PUSHDATA4` pattern slots. -/
theorem matchDecoded_pushes (ds : List (Byte × Option Bytes))
    (h : ∀ d ∈ ds, 0 < d.1 ∧ d.1 ≤ 78)
    (tl : List (Byte × Option Bytes)) (mtl : List Byte) :
    matchDecoded (ds ++ tl) (List.replicate ds.length 78 ++ mtl)
      = matchDecoded tl mtl := by
  induction ds with
  | nil => simp
  | cons d ds ih =>
      obtain ⟨h0, h78⟩ := h d (by simp)
      rw [List.length_cons, List.replicate_succ]
      simp only [List.cons_append, matchDecoded, List.append_eq]
      rw [ih (fun x hx => h x (by simp [hx]))]
      simp [h0, h78]

/-- `to_public_key` on a valid uncompressed raw key compresses it. -/
theorem toPKA_uncompressed (C : ExtCrypto) (k : Bytes) (hlen : k.length = 65)
    (hhd : k.headI = 4) (hcv : C.onCurve k = true) :
    XPublicKey.toPKA C ⟨k⟩ = .pk (C.compress04 k) := by
  cases k with
  | nil => simp at hlen
  | cons a t =>
      simp only [List.headI] at hhd
      rw [XPublicKey.toPKA]
      simp only [List.head?_cons]
      rw [if_neg (by omega), if_pos hhd, if_pos ⟨hlen, hcv⟩]

theorem mkXPublicKey_of_valid (C : ExtCrypto) (k : Bytes)
    (h : xpkValid C k = true) : mkXPublicKey C k = .ok ⟨k⟩ := by
  rw [mkXPublicKey, if_pos h]

/-- A 33-byte `0x02/0x03` or 65-byte `0x04` on-curve key passes
`XPublicKey` construction. -/
theorem xpkValid_canonKey (C : ExtCrypto) (k : Bytes)
    (hsh : (k.length = 33 ∧ (k.headI = 2 ∨ k.headI = 3)) ∨
      (k.length = 65 ∧ k.headI = 4))
    (hcv : C.onCurve k = true) : xpkValid C k = true := by
  rcases hsh with ⟨hlen, hhd⟩ | ⟨hlen, hhd⟩
  · rw [xpkValid, toPKA_compressed C k hlen hhd hcv]
    rfl
  · rw [xpkValid, toPKA_uncompressed C k hlen hhd hcv]
    rfl

/-- Classification of a two-push unlocking script with any accepted key
length: the signature-plus-key shape. -/
theorem parseScriptSig_pushpush (C : ExtCrypto) (s k : Bytes)
    (h1 : 1 ≤ s.length) (h75 : s.length ≤ 75) (hns : ¬ specialSingle s)
    (hk1 : 1 ≤ k.length) (hk75 : k.length ≤ 75) (hkns : ¬ specialSingle k)
    (hkv : xpkValid C k = true) :
    parseScriptSig C (pushItem s ++ pushItem k)
      = .ok ⟨[⟨k⟩], XPublicKey.toAddress C ⟨k⟩, 1, [s]⟩ := by
  have hdec : scriptGetOp (pushItem s ++ pushItem k)
      = [(s.length, some s), (k.length, some k)] := by
    have h := scriptGetOp_pushList [s, k]
      (by
        intro x hx
        simp at hx
        rcases hx with rfl | rfl
        · exact ⟨h1, h75, hns⟩
        · exact ⟨hk1, hk75, hkns⟩)
      []
    simpa [scriptGetOp_nil] using h
  have hm1 : matchDecoded [(s.length, some s), (k.length, some k)] [78]
      = false := by
    simp [matchDecoded]
  have hm2 : matchDecoded [(s.length, some s), (k.length, some k)] [78, 78]
      = true := by
    have hA : s.length ≤ 78 := by omega
    have hC : k.length ≤ 78 := by omega
    simp [matchDecoded, hA, hC]
    exact ⟨Or.inl h1, Or.inl hk1⟩
  rw [parseScriptSig]
  simp only [hdec, hm1, hm2, Bool.false_eq_true, if_false, if_true]
  simp only [List.headI, List.getD, Option.getD_some, List.get?]
  rw [mkXPublicKeyOfPush]
  rw [mkXPublicKey_of_valid C k hkv]
  rfl

/-- Classification of a bare single-push unlocking script: the p2pk
shape, one signature under threshold 1. -/
theorem parseScriptSig_single (C : ExtCrypto) (s : Bytes)
    (h1 : 1 ≤ s.length) (h75 : s.length ≤ 75) (hns : ¬ specialSingle s) :
    parseScriptSig C (pushItem s) = .ok ⟨[], none, 1, [s]⟩ := by
  have hdec : scriptGetOp (pushItem s) = [(s.length, some s)] := by
    rw [pushItem_normal s h1 h75 hns]
    have hc : (s.length :: s) = s.length :: (s ++ []) := by simp
    rw [hc, scriptGetOp_push s.length h1 h75 s [] rfl, scriptGetOp_nil]
  have hm1 : matchDecoded [(s.length, some s)] [78] = true := by
    have hA : s.length ≤ 78 := by omega
    simp [matchDecoded, hA]
    exact Or.inl h1
  rw [parseScriptSig]
  simp only [hdec, hm1, if_true]
  rfl

/-- A special single-byte slot pushed bare renders as one non-push
opcode, matching none of the shapes. -/
theorem parseScriptSig_single_special (C : ExtCrypto) (s : Bytes)
    (hsp : specialSingle s) :
    parseScriptSig C (pushItem s) = .ok default := by
  obtain ⟨op, hpe, hop⟩ := pushItem_special s hsp
  have hdec : scriptGetOp (pushItem s) = [(op, (none : Option Bytes))] := by
    rw [hpe, scriptGetOp_nonpush op hop, scriptGetOp_nil]
  have hm1 : matchDecoded [(op, (none : Option Bytes))] [78] = false := by
    have hA : ¬(op ≤ 78) := Nat.not_le.mpr hop
    have hB : (78 : Nat) ≠ op := Nat.ne_of_lt hop
    simp [matchDecoded, hA, hB]
  have hm2 : matchDecoded [(op, (none : Option Bytes))] [78, 78] = false := by
    simp [matchDecoded]
  have hm3 : matchDecoded [(op, (none : Option Bytes))]
      (0 :: List.replicate ([(op, (none : Option Bytes))].length - 1) 78)
      = false := by
    have hC : (0 : Nat) ≠ op := Nat.ne_of_lt (Nat.lt_trans (by norm_num) hop)
    simp [matchDecoded, hC]
  rw [parseScriptSig]
  simp only [hdec, hm1, hm2, hm3, Bool.false_eq_true, if_false,
    not_false_eq_true, if_true]

theorem pushInt_small (v : Int) (h1 : 1 ≤ v) (h16 : v ≤ 16) :
    pushInt v = [80 + v.toNat] := by
  rw [pushInt, if_neg (by omega), if_pos ⟨h1, h16⟩]

theorem pushItems33_flatten_length (ks : List Bytes)
    (h : ∀ k ∈ ks, k.length = 33) :
    ((ks.map pushItem).flatten).length = 34 * ks.length := by
  induction ks with
  | nil => simp
  | cons k ks ih =>
      have hk := h k (by simp)
      rw [List.map_cons, List.flatten_cons, List.length_append,
          pushItem_33 k hk, ih (fun x hx => h x (by simp [hx]))]
      simp only [List.length_cons, hk]
      omega

/-- The canonical multisig redeem script rebuilt by `multisig_script`. -/
def msRedeem (ks : List Bytes) (m : Int) : Bytes :=
  pushInt m ++ (ks.map pushItem).flatten ++ pushInt (ks.length : Int) ++ [174]

/-- Classification of the canonical `OP_0`-led multisig unlocking script:
the signature slots, the keys, the threshold and the p2sh address of the
rebuilt redeem script are all recovered. -/
theorem parseScriptSig_multisig (C : ExtCrypto) (ks ss : List Bytes) (m : Int)
    (hm1 : 1 ≤ m) (hmn : m ≤ (ks.length : Int)) (hn16 : ks.length ≤ 16)
    (hks : ∀ k ∈ ks, k.length = 33 ∧ (k.headI = 2 ∨ k.headI = 3) ∧
      C.onCurve k = true)
    (hss : ∀ s ∈ ss, 1 ≤ s.length ∧ s.length ≤ 75 ∧ ¬ specialSingle s) :
    parseScriptSig C (0 :: ((ss.map pushItem).flatten
        ++ pushScriptB (msRedeem ks m)))
      = .ok ⟨ks.map (fun k => ⟨k⟩),
             some (.p2sh (C.hash160 (msRedeem ks m))), m, ss⟩ := by
  have hn1 : 1 ≤ ks.length := by
    by_contra hn
    have h0 : ks.length = 0 := by omega
    rw [h0] at hmn
    simp at hmn
    omega
  have hm16 : m ≤ 16 := le_trans hmn (by exact_mod_cast hn16)
  have hmt1 : 1 ≤ m.toNat := by omega
  have hpm : pushInt m = [80 + m.toNat] := pushInt_small m hm1 hm16
  have hpn : pushInt (ks.length : Int) = [80 + ks.length] := by
    rw [pushInt_small (ks.length : Int) (by exact_mod_cast hn1)
      (by exact_mod_cast hn16)]
    simp
  have hshape : msRedeem ks m
      = (80 + m.toNat) :: ((ks.map pushItem).flatten
        ++ ((80 + ks.length) :: [174])) := by
    rw [msRedeem, hpm, hpn]
    simp [List.append_assoc]
  have hkey33 : ∀ k ∈ ks, 1 ≤ k.length ∧ k.length ≤ 75 ∧ ¬ specialSingle k := by
    intro k hk
    obtain ⟨h33, _, _⟩ := hks k hk
    exact ⟨by omega, by omega, not_special_of_two_le k (by omega)⟩
  have hdec2 : scriptGetOp (msRedeem ks m)
      = (80 + m.toNat, (none : Option Bytes))
        :: ((ks.map (fun k => (k.length, some k)))
          ++ [(80 + ks.length, (none : Option Bytes)),
              (174, (none : Option Bytes))]) := by
    rw [hshape, scriptGetOp_nonpush (80 + m.toNat) (by omega),
        scriptGetOp_pushList ks hkey33,
        scriptGetOp_nonpush (80 + ks.length) (by omega),
        scriptGetOp_nonpush 174 (by decide), scriptGetOp_nil]
  have hrl : (msRedeem ks m).length = 34 * ks.length + 3 := by
    rw [msRedeem, hpm, hpn]
    simp only [List.length_append, List.length_cons, List.length_nil,
      pushItems33_flatten_length ks (fun k hk => (hks k hk).1)]
    omega
  obtain ⟨opR, hop0, hop78, hSR⟩ := scriptGetOp_pushScriptB (msRedeem ks m) []
    (by omega) (by omega)
  rw [List.append_nil, scriptGetOp_nil] at hSR
  have hdec : scriptGetOp (0 :: ((ss.map pushItem).flatten
      ++ pushScriptB (msRedeem ks m)))
      = (0, some ([] : Bytes)) :: ((ss.map (fun s => (s.length, some s)))
        ++ [(opR, some (msRedeem ks m))]) := by
    rw [scriptGetOp_op0, scriptGetOp_pushList ss hss, hSR]
  set D := (0, some ([] : Bytes)) :: ((ss.map (fun s => (s.length, some s)))
      ++ [(opR, some (msRedeem ks m))]) with hD
  have hm78a : matchDecoded D [78] = false := by
    rw [hD]
    simp [matchDecoded]
  have hm78b : matchDecoded D [78, 78] = false := by
    rw [hD]
    simp [matchDecoded]
  have hrest := matchDecoded_pushes (ss.map (fun s => (s.length, some s)))
    (by
      intro d hd
      obtain ⟨s, hs, rfl⟩ := List.mem_map.mp hd
      obtain ⟨ha, hb, _⟩ := hss s hs
      show 0 < s.length ∧ s.length ≤ 78
      omega)
    [(opR, some (msRedeem ks m))] [78]
  rw [List.length_map] at hrest
  have hlast : matchDecoded [(opR, some (msRedeem ks m))] [78] = true := by
    simp [matchDecoded, hop78]
    exact Or.inl hop0
  have hm3 : matchDecoded D (0 :: List.replicate (D.length - 1) 78) = true := by
    have hDlen : D.length - 1 = ss.length + 1 := by
      rw [hD]
      simp
    have hra : List.replicate (ss.length + 1) (78 : Byte)
        = List.replicate ss.length 78 ++ [78] := by
      rw [List.replicate_add]
      rfl
    rw [hDlen, hD, hra]
    simp only [matchDecoded]
    rw [hrest, hlast]
    simp
  have hgl : D.getLast? = some (opR, some (msRedeem ks m)) := by
    rw [hD]
    have hc : (0, some ([] : Bytes)) :: ((ss.map (fun s => (s.length, some s)))
        ++ [(opR, some (msRedeem ks m))])
        = ((0, some ([] : Bytes)) :: (ss.map (fun s => (s.length, some s))))
          ++ [(opR, some (msRedeem ks m))] := by
      simp
    rw [hc, List.getLast?_concat]
  set D2 := (80 + m.toNat, (none : Option Bytes))
      :: ((ks.map (fun k => (k.length, some k)))
        ++ [(80 + ks.length, (none : Option Bytes)),
            (174, (none : Option Bytes))]) with hD2
  have hdropP : ((D2.drop 1).dropLast.dropLast)
      = ks.map (fun k => (k.length, some k)) := by
    rw [hD2]
    have hd1 : ((80 + m.toNat, (none : Option Bytes))
        :: ((ks.map (fun k => (k.length, some k)))
          ++ [(80 + ks.length, (none : Option Bytes)),
              (174, (none : Option Bytes))])).drop 1
        = (ks.map (fun k => (k.length, some k)))
          ++ [(80 + ks.length, (none : Option Bytes)),
              (174, (none : Option Bytes))] := rfl
    rw [hd1]
    have hc : (ks.map (fun k => (k.length, some k)))
        ++ [(80 + ks.length, (none : Option Bytes)),
            (174, (none : Option Bytes))]
        = ((ks.map (fun k => (k.length, some k))
            ++ [(80 + ks.length, (none : Option Bytes))])
          ++ [(174, (none : Option Bytes))]) := by
      simp
    rw [hc, List.dropLast_concat, List.dropLast_concat]
  have hxpks : exceptMapM (fun x => mkXPublicKeyOfPush C x.2)
      (ks.map (fun k => (k.length, some k)))
      = .ok (ks.map (fun k => (⟨k⟩ : XPublicKey))) := by
    have h := exceptMapM_ok_of_forall
      (fun x : Byte × Option Bytes => mkXPublicKeyOfPush C x.2)
      (fun x : Byte × Option Bytes => (⟨x.2.getD []⟩ : XPublicKey))
      (ks.map (fun k => (k.length, some k)))
      (by
        intro a ha
        obtain ⟨k, hk, rfl⟩ := List.mem_map.mp ha
        obtain ⟨h33, hhd, hcv⟩ := hks k hk
        exact mkXPublicKey_of_valid C k
          (xpkValid_canonKey C k (Or.inl ⟨h33, hhd⟩) hcv))
    rw [h, List.map_map]
    rfl
  have hhd2 : D2.head? = some (80 + m.toNat, (none : Option Bytes)) := by
    rw [hD2]
    rfl
  have hgl2 : D2.dropLast.getLast?
      = some (80 + ks.length, (none : Option Bytes)) := by
    rw [hD2]
    have hc1 : (80 + m.toNat, (none : Option Bytes))
        :: ((ks.map (fun k => (k.length, some k)))
          ++ [(80 + ks.length, (none : Option Bytes)),
              (174, (none : Option Bytes))])
        = (((80 + m.toNat, (none : Option Bytes))
            :: (ks.map (fun k => (k.length, some k))
              ++ [(80 + ks.length, (none : Option Bytes))]))
          ++ [(174, (none : Option Bytes))]) := by
      simp
    rw [hc1, List.dropLast_concat]
    have hc2 : (80 + m.toNat, (none : Option Bytes))
        :: (ks.map (fun k => (k.length, some k))
          ++ [(80 + ks.length, (none : Option Bytes))])
        = (((80 + m.toNat, (none : Option Bytes))
            :: ks.map (fun k => (k.length, some k)))
          ++ [(80 + ks.length, (none : Option Bytes))]) := by
      simp
    rw [hc2, List.getLast?_concat]
  have hmcalc : (((80 + m.toNat : Nat) : Int)) - 81 + 1 = m := by omega
  have hntoNat : ((((80 + ks.length : Nat) : Int)) - 81 + 1).toNat
      = ks.length := by omega
  have hmatch : matchDecoded D2
      ((80 + m.toNat) :: (List.replicate ks.length 78
        ++ [80 + ks.length, 174])) = true := by
    rw [hD2]
    simp only [matchDecoded]
    have hrest2 := matchDecoded_pushes (ks.map (fun k => (k.length, some k)))
      (by
        intro d hd
        obtain ⟨k, hk, rfl⟩ := List.mem_map.mp hd
        obtain ⟨h33, _, _⟩ := hks k hk
        show 0 < k.length ∧ k.length ≤ 78
        omega)
      [(80 + ks.length, (none : Option Bytes)),
       (174, (none : Option Bytes))] [80 + ks.length, 174]
    rw [List.length_map] at hrest2
    rw [hrest2]
    simp [matchDecoded]
  have hsigs : ((D.drop 1).dropLast).map (fun x => x.2.getD []) = ss := by
    rw [hD]
    have hd1 : ((0, some ([] : Bytes))
        :: ((ss.map (fun s => (s.length, some s)))
          ++ [(opR, some (msRedeem ks m))])).drop 1
        = (ss.map (fun s => (s.length, some s)))
          ++ [(opR, some (msRedeem ks m))] := rfl
    rw [hd1, List.dropLast_concat, List.map_map]
    have hid : ((fun x => x.2.getD []) ∘ (fun s => (s.length, some s)))
        = (id : Bytes → Bytes) := rfl
    rw [hid, List.map_id]
  have hms : multisigScript
      ((ks.map (fun k => (⟨k⟩ : XPublicKey))).map XPublicKey.raw) m
      = .ok (msRedeem ks m) := by
    have hmm : (ks.map (fun k => (⟨k⟩ : XPublicKey))).map XPublicKey.raw
        = ks := by
      rw [List.map_map]
      have hid : (XPublicKey.raw ∘ fun k => (⟨k⟩ : XPublicKey))
          = (id : Bytes → Bytes) := rfl
      rw [hid, List.map_id]
    rw [hmm, multisigScript, if_pos ⟨hm1, hmn⟩]
    rfl
  rw [parseScriptSig]
  simp only [hdec, hm78a, hm78b, hm3, eq_self_iff_true, not_true, if_false,
    Bool.false_eq_true, hgl]
  simp only [Option.getD_some, hdec2, hdropP, hxpks, exceptBind_ok, hhd2, hgl2,
    hmcalc, hntoNat, hmatch, not_true, eq_self_iff_true, if_false, hms, hsigs]

/-- Completeness of the classification fields alone (threshold against
the present signature slots), as `_parse_input` evaluates it on a
freshly parsed input. -/
def kwComplete (kw : ParseSigResult) : Bool :=
  kw.threshold ≤ (((kw.signatures.filter
    (fun sig => sig ≠ NO_SIGNATURE)).length : Int))

/-- The classification step of `_parse_input`: non-coinbase outpoints
re-parse the unlocking script, a zero previous hash leaves the fields
unset. -/
def reparseKw (C : ExtCrypto) (txin : XTxInput) : Except PyErr ParseSigResult :=
  if txin.prev_hash ≠ List.replicate 32 0 then parseScriptSig C txin.script_sig
  else .ok default

/-- The wire-representable field ranges every serialisable input needs. -/
def wireRange (txin : XTxInput) : Prop :=
  txin.prev_hash.length = 32 ∧ txin.prev_idx < 2 ^ 32 ∧
  txin.sequence < 2 ^ 32 ∧ txin.script_sig.length < 2 ^ 64 ∧
  (isTxinComplete txin = false → 0 ≤ txin.value ∧ txin.value < 2 ^ 64)

/-- Coinbase and unknown inputs: the script is passed through verbatim;
the round trip needs re-classifying the written script to preserve
completeness (so the optional trailing value field stays aligned). -/
def canonPassthrough (C : ExtCrypto) (txin : XTxInput) : Prop :=
  txin.address = none ∧
  ∃ kw, reparseKw C txin = .ok kw ∧ kwComplete kw = isTxinComplete txin

/-- Canonical single-key p2pkh inputs: a pushed signature slot and a
pushed on-curve key — 33-byte compressed, or 65-byte uncompressed while
the input is still unsigned (a complete input's key realisation
round-trips only in compressed form). -/
def canonP2PKH (C : ExtCrypto) (txin : XTxInput) : Prop :=
  ∃ k s hh,
    txin.x_pubkeys = [⟨k⟩] ∧ txin.signatures = [s] ∧
    txin.address = some (.p2pkh hh) ∧ txin.threshold = 1 ∧
    txin.script_sig = pushItem s ++ pushItem k ∧
    C.onCurve k = true ∧
    ((k.length = 33 ∧ (k.headI = 2 ∨ k.headI = 3)) ∨
      (k.length = 65 ∧ k.headI = 4 ∧ s = NO_SIGNATURE)) ∧
    1 ≤ s.length ∧ s.length ≤ 75 ∧
    txin.prev_hash ≠ List.replicate 32 0

/-- Canonical p2pk inputs: a bare pushed signature slot; a key shape is
only needed once the input is complete (the slot realisation step). -/
def canonP2PK (C : ExtCrypto) (txin : XTxInput) : Prop :=
  ∃ k s b,
    txin.x_pubkeys = [⟨k⟩] ∧ txin.signatures = [s] ∧
    txin.address = some (.pubkey b) ∧ txin.threshold = 1 ∧
    txin.script_sig = pushItem s ∧
    1 ≤ s.length ∧ s.length ≤ 75 ∧
    txin.prev_hash ≠ List.replicate 32 0 ∧
    (¬ s = NO_SIGNATURE → k.length = 33 ∧ (k.headI = 2 ∨ k.headI = 3) ∧
      C.onCurve k = true)

/-- Canonical p2sh multisig inputs: `OP_0`, the pushed signature slots
(present ones once complete, all slots otherwise), and the pushed
canonical redeem script over up to 16 compressed keys. -/
def canonP2SH (C : ExtCrypto) (txin : XTxInput) : Prop :=
  ∃ ks hh,
    txin.x_pubkeys = ks.map (fun k => (⟨k⟩ : XPublicKey)) ∧
    txin.address = some (.p2sh hh) ∧
    1 ≤ txin.threshold ∧ txin.threshold ≤ (ks.length : Int) ∧
    ks.length ≤ 16 ∧
    (∀ k ∈ ks, k.length = 33 ∧ (k.headI = 2 ∨ k.headI = 3) ∧
      C.onCurve k = true) ∧
    (∀ s ∈ txin.signatures, 1 ≤ s.length ∧ s.length ≤ 75 ∧
      ¬ specialSingle s) ∧
    txin.prev_hash ≠ List.replicate 32 0 ∧
    txin.script_sig = 0 :: ((((if isTxinComplete txin then
        txinSignaturesPresent txin else txin.signatures).map pushItem).flatten)
      ++ pushScriptB (msRedeem ks txin.threshold))

/-- The canonical-input class of the round-trip theorem: wire-range
fields and one of the four canonical shapes. -/
def canonInput (C : ExtCrypto) (txin : XTxInput) : Prop :=
  wireRange txin ∧ (canonPassthrough C txin ∨ canonP2PKH C txin ∨
    canonP2PK C txin ∨ canonP2SH C txin)

/-- The field relation established by round-tripping one input through
`serialize` and `_parse_input`: the outpoint, script and sequence come
back verbatim, while the wallet-internal value survives only for
incomplete inputs (it is simply not serialised for complete ones, and
`_parse_input` then leaves it at `0`). -/
def inputRoundTrip (p q : XTxInput) : Prop :=
  p.prev_hash = q.prev_hash ∧ p.prev_idx = q.prev_idx ∧
  p.script_sig = q.script_sig ∧ p.sequence = q.sequence ∧
  p.value = (if isTxinComplete q then 0 else q.value)

/-- Completeness of an input holding exactly one signature slot under
threshold 1: complete exactly when the slot is not the sentinel. -/
theorem isTxinComplete_singleSig (txin : XTxInput) (s : Bytes)
    (hsig : txin.signatures = [s]) (hthr : txin.threshold = 1) :
    isTxinComplete txin = !(decide (s = NO_SIGNATURE)) := by
  rw [isTxinComplete, txinSignaturesPresent, hsig, hthr]
  by_cases hsn : s = NO_SIGNATURE
  · subst hsn
    decide
  · simp [List.filter, hsn]

theorem isTxinComplete_mk1 (ph : Bytes) (idx : Nat) (sc : Bytes) (sq : Nat)
    (v : Int) (xp : List XPublicKey) (ad : Option TxAddr) (s : Bytes) :
    isTxinComplete ⟨ph, idx, sc, sq, v, xp, ad, 1, [s]⟩
      = !(decide (s = NO_SIGNATURE)) :=
  isTxinComplete_singleSig _ s rfl rfl

theorem isTxinComplete_mk0 (ph : Bytes) (idx : Nat) (sc : Bytes) (sq : Nat)
    (v : Int) (xp : List XPublicKey) (ad : Option TxAddr) :
    isTxinComplete ⟨ph, idx, sc, sq, v, xp, ad, 0, []⟩ = true := rfl

theorem filter_present_idem (l : List Bytes) :
    (l.filter (fun sig => sig ≠ NO_SIGNATURE)).filter
        (fun sig => sig ≠ NO_SIGNATURE)
      = l.filter (fun sig => sig ≠ NO_SIGNATURE) := by
  induction l with
  | nil => rfl
  | cons a t ih =>
      by_cases ha : a = NO_SIGNATURE
      · simp [List.filter, ha, ih]
      · simp [List.filter, ha, ih]

theorem kwComplete_single (xp : List XPublicKey) (ad : Option TxAddr)
    (s : Bytes) :
    kwComplete ⟨xp, ad, 1, [s]⟩ = !(decide (s = NO_SIGNATURE)) := by
  by_cases hsn : s = NO_SIGNATURE
  · subst hsn
    rfl
  · simp [kwComplete, List.filter, hsn]

/-- Realising a list of compressed on-curve keys is the identity. -/
theorem exceptMapM_realize_compressed (C : ExtCrypto) (ks : List Bytes)
    (hks : ∀ k ∈ ks, k.length = 33 ∧ (k.headI = 2 ∨ k.headI = 3) ∧
      C.onCurve k = true) :
    exceptMapM (realizeXpk C) (ks.map (fun k => (⟨k⟩ : XPublicKey)))
      = .ok (ks.map (fun k => (⟨k⟩ : XPublicKey))) := by
  have h := exceptMapM_ok_of_forall (realizeXpk C) (fun x : XPublicKey => x)
    (ks.map (fun k => (⟨k⟩ : XPublicKey)))
    (by
      intro a ha
      obtain ⟨k, hk, rfl⟩ := List.mem_map.mp ha
      obtain ⟨h33, hhd, hcv⟩ := hks k hk
      exact realizeXpk_compressed C k h33 hhd hcv)
  rw [h]
  congr 1
  have hid : (fun x : XPublicKey => x) = (id : XPublicKey → XPublicKey) := rfl
  rw [hid, List.map_id]

/-- A canonical input's unlocking script is rebuilt verbatim by
`input_script`, whichever of the four canonical shapes it has. -/
theorem inputScript_canonInput (C : ExtCrypto) (txin : XTxInput)
    (h : canonInput C txin) : inputScript C txin = .ok txin.script_sig := by
  obtain ⟨-, hcase⟩ := h
  rcases hcase with hpass | hpkh | hpk | hpsh
  · -- coinbase / unknown passthrough
    obtain ⟨haddr, -⟩ := hpass
    have ht : txin.inputType
        = (if txin.isCoinbase then "coinbase" else "unknown") := by
      rw [XTxInput.inputType, haddr]
    have hcu : txin.inputType = "coinbase" ∨ txin.inputType = "unknown" := by
      rw [ht]
      by_cases hc : txin.isCoinbase = true
      · left
        rw [if_pos hc]
      · right
        rw [if_neg hc]
    rw [inputScript, if_pos hcu]
  · -- p2pkh
    obtain ⟨k, s, hh, hx, hsig, haddr, hthr, hscript, hcv, hshape, hs1, hs75,
      hphnz⟩ := hpkh
    have htype : txin.inputType = "p2pkh" := by
      rw [XTxInput.inputType, haddr]
    have hcu : ¬(txin.inputType = "coinbase" ∨ txin.inputType = "unknown") := by
      rw [htype]
      simp
    have hps : ¬(txin.inputType = "p2sh") := by
      rw [htype]
      simp
    have hpkt : txin.inputType = "p2pkh" := htype
    have hk2 : 2 ≤ k.length ∧ k.length ≤ 75 := by
      rcases hshape with ⟨h33, _⟩ | ⟨h65, _, _⟩
      · omega
      · omega
    have hsl : ∃ sl, getSiglist C txin = .ok ([⟨k⟩], sl) ∧ sl = [s] := by
      by_cases hcomp : isTxinComplete txin = true
      · have hsn : ¬ s = NO_SIGNATURE := by
          intro he
          rw [isTxinComplete_singleSig txin s hsig hthr, he] at hcomp
          simp at hcomp
        have hkc : k.length = 33 ∧ (k.headI = 2 ∨ k.headI = 3) := by
          rcases hshape with ⟨h33, hhd⟩ | ⟨_, _, hsnf⟩
          · exact ⟨h33, hhd⟩
          · exact absurd hsnf hsn
        have hpres : txinSignaturesPresent txin = [s] := by
          rw [txinSignaturesPresent, hsig]
          simp [List.filter, hsn]
        refine ⟨[s], ?_, rfl⟩
        rw [getSiglist, if_pos hcomp, hx]
        rw [show exceptMapM (realizeXpk C) [(⟨k⟩ : XPublicKey)] = .ok [⟨k⟩] from by
          rw [exceptMapM, realizeXpk_compressed C k hkc.1 hkc.2 hcv]
          rfl]
        rw [exceptBind_ok, hpres]
      · refine ⟨[s], ?_, rfl⟩
        rw [getSiglist, if_neg hcomp, hx, hsig]
    obtain ⟨sl, hslok, hsleq⟩ := hsl
    subst hsleq
    rw [inputScript, if_neg hcu]
    simp only [hslok, exceptBind_ok]
    rw [if_neg hps, if_pos hpkt]
    simp only [List.head?_cons, List.map_cons, List.map_nil, List.flatten,
      List.append_nil, List.flatten_nil]
    rw [hscript, pushScriptB_eq_pushItem k hk2.1 hk2.2]
  · -- p2pk
    obtain ⟨k, s, b, hx, hsig, haddr, hthr, hscript, hs1, hs75, hphnz,
      hkc⟩ := hpk
    have htype : txin.inputType = "p2pk" := by
      rw [XTxInput.inputType, haddr]
    have hcu : ¬(txin.inputType = "coinbase" ∨ txin.inputType = "unknown") := by
      rw [htype]
      simp
    have hps : ¬(txin.inputType = "p2sh") := by
      rw [htype]
      simp
    have hpkh2 : ¬(txin.inputType = "p2pkh") := by
      rw [htype]
      simp
    have hsl : ∃ xk sl, getSiglist C txin = .ok (xk, sl) ∧ sl = [s] := by
      by_cases hcomp : isTxinComplete txin = true
      · have hsn : ¬ s = NO_SIGNATURE := by
          intro he
          rw [isTxinComplete_singleSig txin s hsig hthr, he] at hcomp
          simp at hcomp
        obtain ⟨h33, hhd, hcv⟩ := hkc hsn
        have hpres : txinSignaturesPresent txin = [s] := by
          rw [txinSignaturesPresent, hsig]
          simp [List.filter, hsn]
        refine ⟨[⟨k⟩], [s], ?_, rfl⟩
        rw [getSiglist, if_pos hcomp, hx]
        rw [show exceptMapM (realizeXpk C) [(⟨k⟩ : XPublicKey)] = .ok [⟨k⟩] from by
          rw [exceptMapM, realizeXpk_compressed C k h33 hhd hcv]
          rfl]
        rw [exceptBind_ok, hpres]
      · refine ⟨[⟨k⟩], [s], ?_, rfl⟩
        rw [getSiglist, if_neg hcomp, hx, hsig]
    obtain ⟨xk, sl, hslok, hsleq⟩ := hsl
    subst hsleq
    rw [inputScript, if_neg hcu]
    simp only [hslok, exceptBind_ok]
    rw [if_neg hps, if_neg hpkh2, hscript]
    simp
  · -- p2sh multisig
    obtain ⟨ks, hh, hx, haddr, hm1, hmn, hn16, hks, hss, hphnz,
      hscript⟩ := hpsh
    have htype : txin.inputType = "p2sh" := by
      rw [XTxInput.inputType, haddr]
    have hcu : ¬(txin.inputType = "coinbase" ∨ txin.inputType = "unknown") := by
      rw [htype]
      simp
    have hpsh2 : txin.inputType = "p2sh" := htype
    have hreal := exceptMapM_realize_compressed C ks hks
    have hsl : ∃ slots, getSiglist C txin
        = .ok (ks.map (fun k => (⟨k⟩ : XPublicKey)), slots) ∧
        slots = (if isTxinComplete txin then txinSignaturesPresent txin
                 else txin.signatures) := by
      by_cases hcomp : isTxinComplete txin = true
      · refine ⟨txinSignaturesPresent txin, ?_, by rw [if_pos hcomp]⟩
        rw [getSiglist, if_pos hcomp, hx, hreal, exceptBind_ok]
      · refine ⟨txin.signatures, ?_, by rw [if_neg hcomp]⟩
        rw [getSiglist, if_neg hcomp, hx]
    obtain ⟨slots, hslok, hsldef⟩ := hsl
    have hms : multisigScript ((ks.map (fun k => (⟨k⟩ : XPublicKey))).map
        XPublicKey.raw) txin.threshold
        = .ok (msRedeem ks txin.threshold) := by
      have hmm : (ks.map (fun k => (⟨k⟩ : XPublicKey))).map XPublicKey.raw
          = ks := by
        rw [List.map_map]
        have hid : (XPublicKey.raw ∘ fun k => (⟨k⟩ : XPublicKey))
            = (id : Bytes → Bytes) := rfl
        rw [hid, List.map_id]
      rw [hmm, multisigScript, if_pos ⟨hm1, hmn⟩]
      rfl
    rw [inputScript, if_neg hcu]
    simp only [hslok, exceptBind_ok]
    rw [if_pos hpsh2]
    simp only [hms, exceptBind_ok]
    rw [hscript, hsldef]


/-- Any canonical input re-parses with its completeness preserved. -/
theorem canonInput_reparse (C : ExtCrypto) (txin : XTxInput)
    (h : canonInput C txin) :
    ∃ kw, reparseKw C txin = .ok kw ∧ kwComplete kw = isTxinComplete txin := by
  obtain ⟨-, hcase⟩ := h
  rcases hcase with hpass | hpkh | hpk | hpsh
  · exact hpass.2
  · obtain ⟨k, s, hh, hx, hsig, haddr, hthr, hscript, hcv, hshape, hs1, hs75,
      hphnz⟩ := hpkh
    have hrw : reparseKw C txin = parseScriptSig C txin.script_sig := by
      rw [reparseKw, if_pos hphnz]
    by_cases hsp : specialSingle s
    · have hsn : ¬ s = NO_SIGNATURE := by
        intro he
        rw [he] at hsp
        simp [specialSingle, NO_SIGNATURE] at hsp
      have hkc : k.length = 33 := by
        rcases hshape with ⟨h33, _⟩ | ⟨_, _, hsnf⟩
        · exact h33
        · exact absurd hsnf hsn
      refine ⟨default, ?_, ?_⟩
      · rw [hrw, hscript]
        exact parseScriptSig_special C s k hsp hkc
      · rw [isTxinComplete_singleSig txin s hsig hthr, decide_eq_false hsn]
        rfl
    · have hk2 : 2 ≤ k.length := by
        rcases hshape with ⟨h33, _⟩ | ⟨h65, _, _⟩
        · omega
        · omega
      have hk75 : k.length ≤ 75 := by
        rcases hshape with ⟨h33, _⟩ | ⟨h65, _, _⟩
        · omega
        · omega
      have hkv : xpkValid C k = true := by
        rcases hshape with ⟨h33, hhd⟩ | ⟨h65, hhd, _⟩
        · exact xpkValid_canonKey C k (Or.inl ⟨h33, hhd⟩) hcv
        · exact xpkValid_canonKey C k (Or.inr ⟨h65, hhd⟩) hcv
      refine ⟨⟨[⟨k⟩], XPublicKey.toAddress C ⟨k⟩, 1, [s]⟩, ?_, ?_⟩
      · rw [hrw, hscript]
        exact parseScriptSig_pushpush C s k hs1 hs75 hsp (by omega) hk75
          (not_special_of_two_le k hk2) hkv
      · rw [kwComplete_single, isTxinComplete_singleSig txin s hsig hthr]
  · obtain ⟨k, s, b, hx, hsig, haddr, hthr, hscript, hs1, hs75, hphnz,
      hkc⟩ := hpk
    have hrw : reparseKw C txin = parseScriptSig C txin.script_sig := by
      rw [reparseKw, if_pos hphnz]
    by_cases hsp : specialSingle s
    · have hsn : ¬ s = NO_SIGNATURE := by
        intro he
        rw [he] at hsp
        simp [specialSingle, NO_SIGNATURE] at hsp
      refine ⟨default, ?_, ?_⟩
      · rw [hrw, hscript]
        exact parseScriptSig_single_special C s hsp
      · rw [isTxinComplete_singleSig txin s hsig hthr, decide_eq_false hsn]
        rfl
    · refine ⟨⟨[], none, 1, [s]⟩, ?_, ?_⟩
      · rw [hrw, hscript]
        exact parseScriptSig_single C s hs1 hs75 hsp
      · rw [kwComplete_single, isTxinComplete_singleSig txin s hsig hthr]
  · obtain ⟨ks, hh, hx, haddr, hm1, hmn, hn16, hks, hss, hphnz,
      hscript⟩ := hpsh
    have hrw : reparseKw C txin = parseScriptSig C txin.script_sig := by
      rw [reparseKw, if_pos hphnz]
    have hssl : ∀ s ∈ (if isTxinComplete txin then txinSignaturesPresent txin
        else txin.signatures), 1 ≤ s.length ∧ s.length ≤ 75 ∧
        ¬ specialSingle s := by
      intro s hs
      apply hss
      by_cases hcomp : isTxinComplete txin = true
      · rw [if_pos hcomp] at hs
        rw [txinSignaturesPresent] at hs
        exact List.mem_of_mem_filter hs
      · rw [if_neg hcomp] at hs
        exact hs
    refine ⟨⟨ks.map (fun k => (⟨k⟩ : XPublicKey)),
      some (.p2sh (C.hash160 (msRedeem ks txin.threshold))), txin.threshold,
      (if isTxinComplete txin then txinSignaturesPresent txin
       else txin.signatures)⟩, ?_, ?_⟩
    · rw [hrw, hscript]
      exact parseScriptSig_multisig C ks _ txin.threshold hm1 hmn hn16 hks hssl
    · show (decide (txin.threshold ≤
          ((((if isTxinComplete txin then txinSignaturesPresent txin
              else txin.signatures).filter
            (fun sig => sig ≠ NO_SIGNATURE)).length : Int))))
        = isTxinComplete txin
      by_cases hcomp : isTxinComplete txin = true
      · rw [if_pos hcomp, txinSignaturesPresent, filter_present_idem, hcomp]
        exact hcomp ▸ rfl
      · rw [if_neg hcomp]
        rfl

/-- `_parse_input` on one serialised canonical input: outpoint, script
and sequence round-trip verbatim; the value reads back for incomplete
inputs and is `0` for complete ones. -/
theorem parseInput_generic (C : ExtCrypto) (txin : XTxInput)
    (kw : ParseSigResult)
    (hph32 : txin.prev_hash.length = 32) (hidx : txin.prev_idx < 2 ^ 32)
    (hseq : txin.sequence < 2 ^ 32) (hslen : txin.script_sig.length < 2 ^ 64)
    (hval : isTxinComplete txin = false → 0 ≤ txin.value ∧ txin.value < 2 ^ 64)
    (hkw : reparseKw C txin = .ok kw)
    (halign : kwComplete kw = isTxinComplete txin)
    (st : BCDataStream) (r : Bytes)
    (hst : st.rest = some (serializeInput txin txin.script_sig ++ r)) :
    ∃ txin' st', parseInput C st = .ok (txin', st') ∧ st'.rest = some r ∧
      inputRoundTrip txin' txin := by
  have hst' : st.rest = some (txin.prev_hash ++ (leEnc 4 txin.prev_idx ++
      (varInt txin.script_sig.length ++ (txin.script_sig ++
      (leEnc 4 txin.sequence ++
      ((if isTxinComplete txin then [] else intLE 8 txin.value) ++ r)))))) := by
    rw [hst, serializeInput, intLE_coe_nat 4 txin.prev_idx (by simpa using hidx),
        intLE_coe_nat 4 txin.sequence (by simpa using hseq)]
    simp [List.append_assoc]
  obtain ⟨st1, hok1, hr1⟩ := read_bytes_spec st txin.prev_hash _ hst'
  rw [hph32] at hok1
  obtain ⟨st2, hok2, hr2⟩ :=
    readNumU_spec st1 4 txin.prev_idx (by omega) _ (by simpa using hidx) hr1
  obtain ⟨st3, hok3, hr3⟩ :=
    read_compact_size_spec st2 txin.script_sig.length _ hslen hr2
  obtain ⟨st4, hok4, hr4⟩ := read_bytes_spec st3 txin.script_sig _ hr3
  obtain ⟨st5, hok5, hr5⟩ :=
    readNumU_spec st4 4 txin.sequence (by omega) _ (by simpa using hseq) hr4
  have hcond : isTxinComplete ⟨txin.prev_hash, txin.prev_idx, txin.script_sig,
      txin.sequence, 0, kw.x_pubkeys, kw.address, kw.threshold, kw.signatures⟩
      = isTxinComplete txin := halign
  by_cases hc : isTxinComplete txin = true
  · have hr5' : st5.rest = some r := by
      rw [hc] at hr5
      simpa using hr5
    have hrun : parseInput C st =
        .ok (⟨txin.prev_hash, txin.prev_idx, txin.script_sig, txin.sequence, 0,
              kw.x_pubkeys, kw.address, kw.threshold, kw.signatures⟩, st5) := by
      by_cases hnz : txin.prev_hash ≠ List.replicate 32 0
      · have hps : parseScriptSig C txin.script_sig = .ok kw := by
          rw [reparseKw, if_pos hnz] at hkw
          exact hkw
        simp only [parseInput, BCDataStream.read_uint32, hok1, hok2, hok3,
          hok4, hok5, exceptBind_ok, if_pos hnz, hps, hcond, hc]
        rfl
      · have hkd : kw = default := by
          rw [reparseKw, if_neg hnz] at hkw
          injection hkw with h
          exact h.symm
        subst hkd
        simp only [parseInput, BCDataStream.read_uint32, hok1, hok2, hok3,
          hok4, hok5, exceptBind_ok, if_neg hnz, hcond, hc]
        rfl
    refine ⟨_, _, hrun, hr5', ?_⟩
    simp only [inputRoundTrip]
    refine ⟨True.intro, True.intro, True.intro, True.intro, ?_⟩
    simp [hc]
  · have hcF : isTxinComplete txin = false := by
      cases hb : isTxinComplete txin
      · rfl
      · exact absurd hb hc
    have hvr := hval hcF
    have hile : intLE 8 txin.value = leEnc 8 txin.value.toNat := by
      rw [intLE, Int.emod_eq_of_lt hvr.1 (by simpa using hvr.2)]
    have hr5' : st5.rest = some (leEnc 8 txin.value.toNat ++ r) := by
      rw [hcF] at hr5
      simpa [hile] using hr5
    obtain ⟨st6, hok6, hr6⟩ := readNumU_spec st5 8 txin.value.toNat (by omega) r
      (by simpa using (by omega : txin.value.toNat < 2 ^ 64)) hr5'
    have hrun : parseInput C st =
        .ok (⟨txin.prev_hash, txin.prev_idx, txin.script_sig, txin.sequence,
              (txin.value.toNat : Int), kw.x_pubkeys, kw.address, kw.threshold,
              kw.signatures⟩, st6) := by
      by_cases hnz : txin.prev_hash ≠ List.replicate 32 0
      · have hps : parseScriptSig C txin.script_sig = .ok kw := by
          rw [reparseKw, if_pos hnz] at hkw
          exact hkw
        simp only [parseInput, BCDataStream.read_uint32,
          BCDataStream.read_uint64, hok1, hok2, hok3, hok4, hok5, hok6,
          exceptBind_ok, if_pos hnz, hps, hcond, hcF, Bool.false_eq_true,
          if_false]
      · have hkd : kw = default := by
          rw [reparseKw, if_neg hnz] at hkw
          injection hkw with h
          exact h.symm
        subst hkd
        simp only [parseInput, BCDataStream.read_uint32,
          BCDataStream.read_uint64, hok1, hok2, hok3, hok4, hok5, hok6,
          exceptBind_ok, if_neg hnz, hcond, hcF, Bool.false_eq_true, if_false]
    refine ⟨_, _, hrun, hr6, ?_⟩
    simp only [inputRoundTrip]
    refine ⟨True.intro, True.intro, True.intro, True.intro, ?_⟩
    rw [hcF]
    simp only [Bool.false_eq_true, if_false]
    exact Int.toNat_of_nonneg hvr.1

/-- Parsing one serialised canonical input. -/
theorem parseInput_canon (C : ExtCrypto) (txin : XTxInput)
    (h : canonInput C txin) (st : BCDataStream) (r : Bytes)
    (hst : st.rest = some (serializeInput txin txin.script_sig ++ r)) :
    ∃ txin' st', parseInput C st = .ok (txin', st') ∧ st'.rest = some r ∧
      inputRoundTrip txin' txin := by
  obtain ⟨kw, hkw, halign⟩ := canonInput_reparse C txin h
  obtain ⟨⟨hph32, hidx, hseq, hslen, hval⟩, -⟩ := h
  exact parseInput_generic C txin kw hph32 hidx hseq hslen hval hkw halign
    st r hst

/-- Iterated `_parse_input` over the serialised canonical inputs. -/
theorem parseInputs_canon (C : ExtCrypto) (txs : List XTxInput)
    (h : ∀ t ∈ txs, canonInput C t) (st : BCDataStream) (r : Bytes)
    (hst : st.rest = some
      ((txs.map (fun t => serializeInput t t.script_sig)).flatten ++ r)) :
    ∃ ins st', parseInputs C txs.length st = .ok (ins, st') ∧
      st'.rest = some r ∧ List.Forall₂ inputRoundTrip ins txs := by
  induction txs generalizing st r with
  | nil =>
      refine ⟨[], st, rfl, ?_, List.Forall₂.nil⟩
      simpa using hst
  | cons t ts ih =>
      have hst' : st.rest = some (serializeInput t t.script_sig ++
          ((ts.map (fun u => serializeInput u u.script_sig)).flatten ++ r)) := by
        rw [hst]
        simp [List.append_assoc]
      obtain ⟨i1, st1, hok1, hr1, hf1⟩ :=
        parseInput_canon C t (h t (by simp)) st _ hst'
      obtain ⟨ins, st2, hok2, hr2, hf2⟩ :=
        ih (fun x hx => h x (by simp [hx])) st1 r hr1
      refine ⟨i1 :: ins, st2, ?_, hr2, List.Forall₂.cons hf1 hf2⟩
      simp only [List.length_cons, parseInputs, hok1, exceptBind_ok, hok2]

/-- `read_varint` reads back exactly what `var_int` wrote. -/
theorem readVarintB_spec (st : BCDataStream) (n : Nat) (r : Bytes)
    (hv : n < 2 ^ 64) (h : st.rest = some (varInt n ++ r)) :
    ∃ st', readVarintB st = .ok (n, st') ∧ st'.rest = some r := by
  by_cases h1 : n < 253
  · have h' : st.rest = some ([n] ++ r) := by
      rwa [varInt, if_pos h1] at h
    obtain ⟨st1, hok, hr⟩ := read_bytes_spec st [n] r h'
    have hok1 : BCDataStream.read_bytes st 1 = .ok ([n], st1) := hok
    refine ⟨st1, ?_, hr⟩
    simp only [readVarintB, hok1, exceptBind_ok]
    rw [if_pos h1]
  · have hmark : ∃ m w, varInt n = m :: leEnc w n ∧ n < 2 ^ (8 * w) ∧
        ((m = 253 ∧ w = 2) ∨ (m = 254 ∧ w = 4) ∨ (m = 255 ∧ w = 8)) := by
      by_cases h2 : n < 2 ^ 16
      · exact ⟨253, 2, by unfold varInt; rw [if_neg h1, if_pos h2],
          by simpa using h2, Or.inl ⟨rfl, rfl⟩⟩
      · by_cases h3 : n < 2 ^ 32
        · exact ⟨254, 4, by unfold varInt; rw [if_neg h1, if_neg h2, if_pos h3],
            by simpa using h3, Or.inr (Or.inl ⟨rfl, rfl⟩)⟩
        · exact ⟨255, 8, by unfold varInt; rw [if_neg h1, if_neg h2, if_neg h3],
            by simpa using hv, Or.inr (Or.inr ⟨rfl, rfl⟩)⟩
    obtain ⟨m, w, henc, hlt, hm⟩ := hmark
    have h' : st.rest = some ([m] ++ (leEnc w n ++ r)) := by
      rw [h, henc]
      simp
    obtain ⟨st1, hok, hr1⟩ := read_bytes_spec st [m] _ h'
    have hok1 : BCDataStream.read_bytes st 1 = .ok ([m], st1) := hok
    obtain ⟨st2, hok2, hr2⟩ := read_bytes_spec st1 (leEnc w n) r hr1
    rw [leEnc_length] at hok2
    refine ⟨st2, ?_, hr2⟩
    simp only [readVarintB, hok1, exceptBind_ok]
    rcases hm with ⟨rfl, rfl⟩ | ⟨rfl, rfl⟩ | ⟨rfl, rfl⟩ <;>
      · have hlt' : n % 2 ^ (8 * _) = n := Nat.mod_eq_of_lt hlt
        simp [hok2, exceptBind_ok, leDec_leEnc, leEnc_length, hlt']
        omega

/-- One serialised output wire record. -/
def outWire (o : TxOutput) : Bytes :=
  intLE 8 o.value ++ varInt o.script_pubkey.length ++ o.script_pubkey

/-- `TxOutput.read` reads back exactly what `TxOutput.to_bytes` wrote. -/
theorem readOutput_spec (st : BCDataStream) (o : TxOutput) (r : Bytes)
    (hlo : -(2 : Int) ^ 63 ≤ o.value) (hhi : o.value < (2 : Int) ^ 63)
    (hsl : o.script_pubkey.length < 2 ^ 64)
    (h : st.rest = some (intLE 8 o.value ++
      (varInt o.script_pubkey.length ++ (o.script_pubkey ++ r)))) :
    ∃ st', readOutput st = .ok (o, st') ∧ st'.rest = some r := by
  obtain ⟨st1, hok1, hr1⟩ := read_bytes_spec st (intLE 8 o.value) _ h
  rw [intLE_length] at hok1
  obtain ⟨st2, hok2, hr2⟩ :=
    readVarintB_spec st1 o.script_pubkey.length _ hsl hr1
  obtain ⟨st3, hok3, hr3⟩ := read_bytes_spec st2 o.script_pubkey r hr2
  refine ⟨st3, ?_, hr3⟩
  have hsd : sdec 8 (leDec (intLE 8 o.value)) = o.value := by
    have h8 := sdec_leDec_intLE 8 (by omega) o.value
      (by simpa using hlo) (by simpa using hhi)
    exact h8
  simp [readOutput, hok1, hok2, hok3, hsd, intLE_length, exceptBind_ok]

theorem readOutputN_spec (os : List TxOutput)
    (hos : ∀ o ∈ os, -(2 : Int) ^ 63 ≤ o.value ∧ o.value < (2 : Int) ^ 63 ∧
      o.script_pubkey.length < 2 ^ 64)
    (st : BCDataStream) (r : Bytes)
    (hst : st.rest = some ((os.map outWire).flatten ++ r)) :
    ∃ st', readOutputN os.length st = .ok (os, st') ∧ st'.rest = some r := by
  induction os generalizing st r with
  | nil => exact ⟨st, rfl, by simpa using hst⟩
  | cons o os ih =>
      have h' : st.rest = some (intLE 8 o.value ++
          (varInt o.script_pubkey.length ++ (o.script_pubkey ++
          ((os.map outWire).flatten ++ r)))) := by
        rw [hst]
        simp [outWire, List.append_assoc]
      obtain ⟨h1, h2, h3⟩ := hos o (by simp)
      obtain ⟨st1, hok1, hr1⟩ := readOutput_spec st o _ h1 h2 h3 h'
      obtain ⟨st2, hok2, hr2⟩ := ih (fun x hx => hos x (by simp [hx])) st1 r hr1
      refine ⟨st2, ?_, hr2⟩
      simp only [List.length_cons, readOutputN, hok1, exceptBind_ok, hok2]

theorem readOutputs_spec (os : List TxOutput)
    (hos : ∀ o ∈ os, -(2 : Int) ^ 63 ≤ o.value ∧ o.value < (2 : Int) ^ 63 ∧
      o.script_pubkey.length < 2 ^ 64)
    (hn : os.length < 2 ^ 64) (st : BCDataStream) (r : Bytes)
    (hst : st.rest = some (varInt os.length ++ ((os.map outWire).flatten ++ r))) :
    ∃ st', readOutputs st = .ok (os, st') ∧ st'.rest = some r := by
  obtain ⟨st1, hok1, hr1⟩ := readVarintB_spec st os.length _ hn hst
  obtain ⟨st2, hok2, hr2⟩ := readOutputN_spec os hos st1 r hr1
  exact ⟨st2, by simp only [readOutputs, hok1, exceptBind_ok, hok2], hr2⟩

/-- The serialize/deserialize round trip over canonical single-key p2pkh
inputs: everything reproduces verbatim except a complete input's value,
which is not serialised and deserialises as `0`. -/
theorem roundTripCore (C : ExtCrypto) (tx : Transaction)
    (hin : ∀ t ∈ tx.txInputs, canonInput C t)
    (hne : tx.txInputs ≠ [])
    (hout : ∀ o ∈ tx.txOutputs, -(2 : Int) ^ 63 ≤ o.value ∧
      o.value < (2 : Int) ^ 63 ∧ o.script_pubkey.length < 2 ^ 64)
    (hver : -(2 : Int) ^ 31 ≤ tx.version ∧ tx.version < (2 : Int) ^ 31)
    (hlock : tx.locktime < 2 ^ 32)
    (hni : tx.txInputs.length < 2 ^ 64) (hno : tx.txOutputs.length < 2 ^ 64) :
    ∃ raw ptx, Transaction.serialize C tx = .ok raw ∧
      deserializeRaw C raw = .ok ptx ∧
      ptx.version = tx.version ∧ ptx.outputs = tx.txOutputs ∧
      ptx.lockTime = tx.locktime ∧
      List.Forall₂ inputRoundTrip ptx.inputs tx.txInputs := by
  have hinp : exceptMapM (fun txin => do
      let s ← inputScript C txin
      (.ok (serializeInput txin s) : Except PyErr Bytes)) tx.txInputs =
      .ok (tx.txInputs.map (fun t => serializeInput t t.script_sig)) := by
    refine exceptMapM_ok_of_forall _ _ _ (fun a ha => ?_)
    rw [show inputScript C a = .ok a.script_sig from
      inputScript_canonInput C a (hin a ha)]
    rfl
  have houtp : exceptMapM TxOutput.toBytesB tx.txOutputs =
      .ok (tx.txOutputs.map outWire) := by
    refine exceptMapM_ok_of_forall _ _ _ (fun o ho => ?_)
    obtain ⟨h1, h2, _⟩ := hout o ho
    rw [TxOutput.toBytesB, if_pos ⟨h1, h2⟩]
    rfl
  have hser : Transaction.serialize C tx = .ok (
      intLE 4 tx.version ++ varInt tx.txInputs.length ++
      (tx.txInputs.map (fun t => serializeInput t t.script_sig)).flatten ++
      varInt tx.txOutputs.length ++ (tx.txOutputs.map outWire).flatten ++
      intLE 4 (tx.locktime : Int)) := by
    simp only [Transaction.serialize, hinp, exceptBind_ok, houtp]
  have hst0 : (BCDataStream.write ⟨none, 0⟩
      (intLE 4 tx.version ++ varInt tx.txInputs.length ++
      (tx.txInputs.map (fun t => serializeInput t t.script_sig)).flatten ++
      varInt tx.txOutputs.length ++ (tx.txOutputs.map outWire).flatten ++
      intLE 4 (tx.locktime : Int))).rest = some (
      intLE 4 tx.version ++ (varInt tx.txInputs.length ++
      ((tx.txInputs.map (fun t => serializeInput t t.script_sig)).flatten ++
      (varInt tx.txOutputs.length ++ ((tx.txOutputs.map outWire).flatten ++
      (intLE 4 (tx.locktime : Int) ++ [])))))) := by
    simp [BCDataStream.write, BCDataStream.rest, List.append_assoc]
  obtain ⟨st1, hok1, hr1⟩ := readNumS_spec _ 4 (by omega) tx.version
    (by simpa using hver.1) (by simpa using hver.2) _ hst0
  obtain ⟨st2, hok2, hr2⟩ :=
    read_compact_size_spec st1 tx.txInputs.length _ hni hr1
  obtain ⟨ins, st3, hok3, hr3, hf⟩ := parseInputs_canon C tx.txInputs hin st2 _ hr2
  obtain ⟨st4, hok4, hr4⟩ := readOutputs_spec tx.txOutputs hout hno st3 _ hr3
  have hr4' : st4.rest = some (leEnc 4 tx.locktime ++ []) := by
    rwa [intLE_coe_nat 4 tx.locktime (by simpa using hlock)] at hr4
  obtain ⟨st5, hok5, hr5⟩ :=
    readNumU_spec st4 4 tx.locktime (by omega) [] (by simpa using hlock) hr4'
  have hnz : ¬ (tx.txInputs.length = 0) := by
    intro h0
    exact hne (List.eq_nil_of_length_eq_zero h0)
  refine ⟨_, ⟨tx.version, ins, tx.txOutputs, tx.locktime⟩, hser, ?_,
    rfl, rfl, rfl, hf⟩
  simp only [deserializeRaw, BCDataStream.read_int32, hok1, exceptBind_ok,
    hok2, if_neg hnz, hok3, hok4, BCDataStream.read_uint32, hok5]

/-- C3 (amended): for a transaction whose inputs are canonical single-key
p2pkh inputs (with wire-range version, locktime, counts and output
fields), `deserialize(serialize(tx))` succeeds and reproduces the
version, the outputs (value and script), the locktime, and every input's
previous hash, previous index, script and sequence verbatim — but an
input's value round-trips only when the input is incomplete: a complete
input's value is not serialised at all and deserialises as `0`. -/
theorem serialize_deserialize_round_trip (C : ExtCrypto) (tx : Transaction)
    (hin : ∀ t ∈ tx.txInputs, canonInput C t)
    (hne : tx.txInputs ≠ [])
    (hout : ∀ o ∈ tx.txOutputs, -(2 : Int) ^ 63 ≤ o.value ∧
      o.value < (2 : Int) ^ 63 ∧ o.script_pubkey.length < 2 ^ 64)
    (hver : -(2 : Int) ^ 31 ≤ tx.version ∧ tx.version < (2 : Int) ^ 31)
    (hlock : tx.locktime < 2 ^ 32)
    (hni : tx.txInputs.length < 2 ^ 64) (hno : tx.txOutputs.length < 2 ^ 64) :
    ∃ raw ptx, Transaction.serialize C tx = .ok raw ∧
      deserializeRaw C raw = .ok ptx ∧
      ptx.version = tx.version ∧ ptx.outputs = tx.txOutputs ∧
      ptx.lockTime = tx.locktime ∧
      List.Forall₂ inputRoundTrip ptx.inputs tx.txInputs :=
  roundTripCore C tx hin hne hout hver hlock hni hno

/-- A fully signed transaction whose single canonical p2pkh input is
complete and carries the non-zero wallet value `5`: `serialize` omits
the value field entirely. -/
def txinValueLost : XTxInput :=
  ⟨List.replicate 32 1, 0,
   pushItem [20] ++ pushItem (2 :: List.replicate 32 7), 0, 5,
   [⟨2 :: List.replicate 32 7⟩], some (.p2pkh (List.replicate 20 3)), 1,
   [[20]]⟩

def txValueLost : Transaction :=
  ⟨1, [txinValueLost], [⟨6, [81]⟩], 0, none⟩

/-- Counterexample to C3 as stated: the fully signed (complete)
transaction `txValueLost` carries input value `5`, yet serialising and
deserialising yields an input whose value is `0` — the value field is
only written to the wire for incomplete inputs. -/
theorem serialize_loses_complete_input_value :
    ∃ raw ptx, Transaction.serialize C0 txValueLost = .ok raw ∧
      deserializeRaw C0 raw = .ok ptx ∧
      ptx.inputs.map XTxInput.value = [0] ∧
      txValueLost.txInputs.map XTxInput.value = [5] ∧
      Transaction.is_complete txValueLost = true := by
  obtain ⟨raw, ptx, hser, hdes, _, _, _, hf⟩ :=
    roundTripCore C0 txValueLost
      (by
        intro t ht
        have he : t = txinValueLost := by
          simpa [txValueLost] using ht
        subst he
        exact ⟨⟨by decide, by decide, by decide, by decide, by decide⟩,
          Or.inr (Or.inl ⟨2 :: List.replicate 32 7, [20], List.replicate 20 3,
            rfl, rfl, rfl, rfl, rfl, rfl, Or.inl ⟨by decide, Or.inl rfl⟩,
            by decide, by decide, by decide⟩)⟩)
      (by decide)
      (by
        intro o ho
        have he : o = ⟨6, [81]⟩ := by
          simpa [txValueLost] using ho
        subst he
        exact ⟨by decide, by decide, by decide⟩)
      ⟨by decide, by decide⟩
      (by decide)
      (by decide)
      (by decide)
  refine ⟨raw, ptx, hser, hdes, ?_, rfl, rfl⟩
  rw [show txValueLost.txInputs = [txinValueLost] from rfl] at hf
  rw [List.forall₂_cons_right_iff] at hf
  obtain ⟨a, l, hrt, htl, hlst⟩ := hf
  rw [List.forall₂_nil_right_iff] at htl
  subst htl
  rw [hlst]
  rw [inputRoundTrip] at hrt
  obtain ⟨_, _, _, _, hv⟩ := hrt
  rw [show isTxinComplete txinValueLost = true from rfl] at hv
  simp at hv
  simp [hv]

/-- A one-input, one-output transaction whose input is canonical p2pkh
with the sentinel (unsigned) signature slot and value `7`. -/
def txCanonRT : Transaction :=
  ⟨1,
   [⟨List.replicate 32 1, 0,
     pushItem NO_SIGNATURE ++ pushItem (2 :: List.replicate 32 7), 0, 7,
     [⟨2 :: List.replicate 32 7⟩], some (.p2pkh (List.replicate 20 3)), 1,
     [NO_SIGNATURE]⟩],
   [⟨6, [81]⟩], 0, none⟩

theorem serialize_deserialize_round_trip_witness :
    ∃ raw ptx, Transaction.serialize C0 txCanonRT = .ok raw ∧
      deserializeRaw C0 raw = .ok ptx ∧
      ptx.version = txCanonRT.version ∧ ptx.outputs = txCanonRT.txOutputs ∧
      ptx.lockTime = txCanonRT.locktime ∧
      List.Forall₂ inputRoundTrip ptx.inputs txCanonRT.txInputs :=
  serialize_deserialize_round_trip C0 txCanonRT
    (by
      intro t ht
      have he : t = ⟨List.replicate 32 1, 0,
          pushItem NO_SIGNATURE ++ pushItem (2 :: List.replicate 32 7), 0, 7,
          [⟨2 :: List.replicate 32 7⟩], some (.p2pkh (List.replicate 20 3)), 1,
          [NO_SIGNATURE]⟩ := by
        simpa [txCanonRT] using ht
      subst he
      exact ⟨⟨by decide, by decide, by decide, by decide, by decide⟩,
        Or.inr (Or.inl ⟨2 :: List.replicate 32 7, NO_SIGNATURE,
          List.replicate 20 3, rfl, rfl, rfl, rfl, rfl, rfl,
          Or.inl ⟨by decide, Or.inl rfl⟩, by decide, by decide,
          by decide⟩)⟩)
    (by decide)
    (by
      intro o ho
      have he : o = ⟨6, [81]⟩ := by
        simpa [txCanonRT] using ho
      subst he
      exact ⟨by decide, by decide, by decide⟩)
    ⟨by decide, by decide⟩
    (by decide)
    (by decide)
    (by decide)

end ElectrumSV
